import Mathlib

/-!
Session pool manager of retesteth (`retesteth/session/RPCSession.cpp`).

A shallow embedding of the session registry (`socketMap`), the client launcher
(`RPCSession::runNewInstanceOfAClient`), `RPCSession::instance`, `sessionStart`,
`sessionEnd`, `sessionStatus` and `closeSession`, followed by theorems about them.

Modelling conventions
* The registry `std::map<std::string, sessionInfo>` is a list of key/value pairs;
  a registry state of the program is such a list with strictly increasing keys
  (`SocketMap.ordered`), which is also the iteration order of `std::map`.
* Every function runs under the registry lock or is modelled sequentially; thread
  interleavings are outside this development.
* Operating-system effects (temporary directory, process spawn, file existence,
  sleeping, signals, directory removal) are recorded in an event list; the answers of
  the operating system are supplied by an `Env` value.
* A fatal condition (`ETH_FAIL_MESSAGE`, `ETH_FAIL_REQUIRE_MESSAGE`,
  `ETH_ERROR_MESSAGE` followed by `SIGABRT`, an uncaught `std::out_of_range`) is an
  `Except.error`; the registry as it stood at that point is kept in the outcome.
-/

namespace Retesteth

/-- Thread identifier: `std::string` key of `socketMap`. -/
abbrev ThreadID := String

/-- Modelled from the spec: `test::ClientConfigID` (declared in `ClientConfig.h`) is a
stable configuration identifier; the registry only compares it for equality. -/
abbrev ClientConfigID := Nat

/-- A non-null `FILE*` handle; `NULL` is `none` of `Option FilePtr`. -/
abbrev FilePtr := Nat

/-- The enum `RPCSession::SessionStatus`. -/
inductive SessionStatus where
  | Working
  | Available
  | NotExist
  deriving DecidableEq

/-- Modelled from the spec: the enum `Socket::SocketType` (declared in `Socket.h`): the four
transport kinds the launcher branches on; `Other` stands for any further value, which
reaches the final `else` of the launcher. -/
inductive SocketType where
  | TCP
  | IPC
  | IPCDebug
  | TransitionTool
  | Other
  deriving DecidableEq

/-- Which implementation class sits behind a session: `RPCImpl` or `ToolImpl`. -/
inductive ImplKind where
  | RPCImpl
  | ToolImpl
  deriving DecidableEq

/-- Modelled from the spec: the session backend (`SessionInterface`, implemented by `RPCImpl`
and `ToolImpl`, declared in `RPCImpl.h` and `ToolImpl.h`) reports the transport kind and
the address it was constructed with: `getSocketType()` and `getSocketPath()`. -/
structure SessionInterface where
  impl : ImplKind
  socketType : SocketType
  socketPath : String
  deriving DecidableEq

/-- The struct `sessionInfo`. `session` is the implementation reached through
`session.get()->getImplementation()`; it is non-null in every entry of the registry
(the constructor always receives a fresh `RPCSession`, and `closeSession`, the only code
that releases it, runs inside `clear`, which drops the entry under the same lock). -/
structure sessionInfo where
  session : SessionInterface
  filePipe : Option FilePtr
  pipePid : Int
  isUsed : SessionStatus
  tmpDir : String
  configId : ClientConfigID
  deriving DecidableEq

/-- The constructor `sessionInfo::sessionInfo(_pipe, _session, _tmpDir, _pid, _configId)`:
it sets `isUsed = RPCSession::NotExist`. -/
def sessionInfo.new (pipe : Option FilePtr) (session : SessionInterface) (tmpDir : String)
    (pid : Int) (configId : ClientConfigID) : sessionInfo :=
  { session := session
    filePipe := pipe
    tmpDir := tmpDir
    pipePid := pid
    isUsed := SessionStatus.NotExist
    configId := configId }

/-- The fields of `test::Options` read by the session code. -/
structure Options where
  threadCount : Nat
  enableClientsOutput : Bool
  nodesoverride : List String

/-- The getters of `ClientConfig` read by the session code: `getId`, `getSocketType`,
`getShellPath`, `getAddress` and the sub-objects of `getAddressObject` as strings. -/
structure ClientConfig where
  id : ClientConfigID
  socketType : SocketType
  shellPath : String
  address : String
  addressObject : List String

/-- The enum `test::popenOutput` as used by the launcher. -/
inductive popenOutput where
  | EnableALL
  | DisableAll
  deriving DecidableEq

/-- Observable actions of the session code, in program order. -/
inductive Event where
  | newInstance (threadID : ThreadID) (configId : ClientConfigID)
  | createUniqueTmpDirectory (path : String)
  | popen2 (command : String) (args : List String) (mode : popenOutput)
  | fileExists (path : String)
  | sleepSeconds (seconds : Nat)
  | pclose2 (fp : Option FilePtr) (pid : Int)
  | removeAll (path : String)
  deriving DecidableEq

/-- The fatal conditions of the session code. -/
inductive Fatal where
  | failedToStartClient
  | clientTookTooLong
  | unknownSocketType
  | sessionForAnotherClient
  | moreInstancesThanNeeded
  | failedToCreateSocket
  | outOfRange
  | socketMapEmptyInClose
  | assertFailed
  deriving DecidableEq

/-- Answers of the operating system during one launch: the directory returned by
`createUniqueTmpDirectory`, the result of `popen2` (`none` for a null `FILE*`, else the
pipe and the pid), and the result of the i-th call (from 0) of
`boost::filesystem::exists(ipcPath)`. -/
structure Env where
  tmpDir : String
  popen : Option (FilePtr × Int)
  ipcExists : Nat → Bool

/-- The registry `socketMap`: the entries in iteration order. -/
structure SocketMap where
  entries : List (ThreadID × sessionInfo)
  deriving DecidableEq

/-- What a call leaves behind: the registry, the actions performed, and the returned
value or the fatal condition. -/
structure Outcome (α : Type) where
  map : SocketMap
  events : List Event
  result : Except Fatal α

/-- Decidable equality of results, for evaluating the model on concrete inputs. -/
instance instDecidableEqExcept {ε α : Type} [DecidableEq ε] [DecidableEq α] :
    DecidableEq (Except ε α)
  | Except.ok a, Except.ok b =>
    if h : a = b then isTrue (congrArg Except.ok h)
    else isFalse (fun h1 => h (Except.ok.inj h1))
  | Except.error a, Except.error b =>
    if h : a = b then isTrue (congrArg Except.error h)
    else isFalse (fun h1 => h (Except.error.inj h1))
  | Except.ok _, Except.error _ => isFalse (fun h1 => Except.noConfusion h1)
  | Except.error _, Except.ok _ => isFalse (fun h1 => Except.noConfusion h1)

namespace SocketMap

/-- The class invariant of `std::map`: keys strictly increasing (hence unique) in the
lexicographic order of their character sequences. -/
def ordered (m : SocketMap) : Prop :=
  m.entries.Pairwise (fun a b => a.1.data < b.1.data)

/-- The invariant can be checked on a concrete registry. -/
instance decidableOrdered (m : SocketMap) : Decidable m.ordered :=
  List.instDecidablePairwise m.entries

/-- The empty registry. -/
def empty : SocketMap := ⟨[]⟩

/-- The call `socketMap.size()`. -/
def size (m : SocketMap) : Nat := m.entries.length

/-- Lookup in a list of entries. -/
def findRaw (k : ThreadID) : List (ThreadID × sessionInfo) → Option sessionInfo
  | [] => none
  | (k', v') :: rest => if k = k' then some v' else findRaw k rest

/-- The lookup `socketMap.find(k)`; `none` is `end()`. -/
def find (m : SocketMap) (k : ThreadID) : Option sessionInfo := findRaw k m.entries

/-- The call `socketMap.count(k)`, as a boolean. -/
def count (m : SocketMap) (k : ThreadID) : Bool := (m.find k).isSome

/-- Insertion at the position given by the key order, the lexicographic comparison of the
character sequences (`std::less<std::string>`); an existing key is kept. -/
def insertRaw (k : ThreadID) (v : sessionInfo) :
    List (ThreadID × sessionInfo) → List (ThreadID × sessionInfo)
  | [] => [(k, v)]
  | (k', v') :: rest =>
    if k.data < k'.data then (k, v) :: (k', v') :: rest
    else if k = k' then (k', v') :: rest
    else (k', v') :: insertRaw k v rest

/-- The call `socketMap.insert(std::pair(k, v))`: no effect when `k` is present. -/
def insert (m : SocketMap) (k : ThreadID) (v : sessionInfo) : SocketMap :=
  ⟨insertRaw k v m.entries⟩

/-- Removal of the entry with key `k` from a list of entries. -/
def eraseRaw (k : ThreadID) : List (ThreadID × sessionInfo) → List (ThreadID × sessionInfo)
  | [] => []
  | (k', v') :: rest => if k = k' then rest else (k', v') :: eraseRaw k rest

/-- The call `socketMap.erase(socketMap.find(k))` for a key that is present. -/
def erase (m : SocketMap) (k : ThreadID) : SocketMap := ⟨eraseRaw k m.entries⟩

/-- Assignment `socketMap.at(k).isUsed = s` on a list of entries. -/
def setStatusRaw (k : ThreadID) (s : SessionStatus) :
    List (ThreadID × sessionInfo) → List (ThreadID × sessionInfo)
  | [] => []
  | (k', v') :: rest =>
    if k = k' then (k', { v' with isUsed := s }) :: rest
    else (k', v') :: setStatusRaw k s rest

/-- The assignment `socketMap.at(k).isUsed = s` for a key that is present. -/
def setStatus (m : SocketMap) (k : ThreadID) (s : SessionStatus) : SocketMap :=
  ⟨setStatusRaw k s m.entries⟩

end SocketMap

/-- The registry scan of the network-address branch: some entry of the registry has a
backend whose `getSocketPath()` equals `addr` (the inner `for` loop, which clears
`unused` and breaks at the first such entry). -/
def addressInUse (m : SocketMap) (addr : String) : Bool :=
  m.entries.any (fun socket => decide (socket.2.session.socketPath = addr))

/-- The loop `while (!exists(ipcPath) && maxSeconds-- > 0) sleep_for(seconds(1))` of the
local-socket branch. The first argument is the value of `maxSeconds` when the loop
condition is evaluated (never negative there), the second the number of existence checks
made so far. The result is the value of `maxSeconds` after the loop (an `int`, which is
`-1` when the post-decrement ran at `0`) and the actions performed. -/
def waitForIpc (ipcPath : String) (ipcExists : Nat → Bool) : Nat → Nat → Int × List Event
  | 0, check =>
    if ipcExists check then ((0 : Int), [Event.fileExists ipcPath])
    else ((-1 : Int), [Event.fileExists ipcPath])
  | n + 1, check =>
    if ipcExists check then (((n + 1 : Nat) : Int), [Event.fileExists ipcPath])
    else
      let r := waitForIpc ipcPath ipcExists n (check + 1)
      (r.1, Event.fileExists ipcPath :: Event.sleepSeconds 1 :: r.2)

/-- The function `RPCSession::runNewInstanceOfAClient(_threadID, _config)`, run on the
registry `m`. -/
def runNewInstanceOfAClient (opts : Options) (env : Env) (m : SocketMap)
    (threadID : ThreadID) (config : ClientConfig) : Outcome Unit :=
  match config.socketType with
  | SocketType.IPC =>
    let tmpDir := env.tmpDir
    let ipcPath := tmpDir ++ "/geth.ipc"
    let command := "bash"
    let args := [config.shellPath, tmpDir, ipcPath]
    let mode := if opts.enableClientsOutput then popenOutput.EnableALL
      else popenOutput.DisableAll
    let started := [Event.createUniqueTmpDirectory tmpDir, Event.popen2 command args mode]
    match env.popen with
    | none => ⟨m, started, Except.error Fatal.failedToStartClient⟩
    | some (fp, pid) =>
      let w := waitForIpc ipcPath env.ipcExists 25 0
      if w.1 > 0 then
        let info := sessionInfo.new (some fp)
          ⟨ImplKind.RPCImpl, SocketType.IPC, ipcPath⟩ tmpDir pid config.id
        ⟨m.insert threadID info, started ++ w.2 ++ [Event.sleepSeconds 4], Except.ok ()⟩
      else ⟨m, started ++ w.2, Except.error Fatal.clientTookTooLong⟩
  | SocketType.TCP =>
    let ports := if opts.nodesoverride.length > 0 then opts.nodesoverride
      else config.addressObject
    match ports.find? (fun addr => !(addressInUse m addr)) with
    | some addr =>
      let info := sessionInfo.new none ⟨ImplKind.RPCImpl, SocketType.TCP, addr⟩ "" 0 config.id
      ⟨m.insert threadID info, [], Except.ok ()⟩
    | none => ⟨m, [], Except.ok ()⟩
  | SocketType.IPCDebug =>
    let tmpDir := env.tmpDir
    let ipcPath := config.address
    let info := sessionInfo.new none ⟨ImplKind.RPCImpl, SocketType.IPC, ipcPath⟩ tmpDir 0
      config.id
    ⟨m.insert threadID info, [Event.createUniqueTmpDirectory tmpDir], Except.ok ()⟩
  | SocketType.TransitionTool =>
    let info := sessionInfo.new none ⟨ImplKind.ToolImpl, SocketType.TCP, config.address⟩ "" 0
      config.id
    ⟨m.insert threadID info, [], Except.ok ()⟩
  | SocketType.Other => ⟨m, [], Except.error Fatal.unknownSocketType⟩

/-- The scan `for (auto& socket : socketMap)` of `RPCSession::instance`: the first entry in
iteration order with `isUsed == Available` and `configId == currentConfigId`. -/
def findAvailable (currentConfigId : ClientConfigID) (m : SocketMap) :
    Option (ThreadID × sessionInfo) :=
  m.entries.find? (fun socket =>
    decide (socket.2.isUsed = SessionStatus.Available) &&
      decide (socket.2.configId = currentConfigId))

/-- The tail of `RPCSession::instance`: the two `ETH_FAIL_REQUIRE_MESSAGE` checks on
`socketMap.size()` and the return of `socketMap.at(_threadID)`, which throws
`std::out_of_range` when the key is absent. -/
def checkedReturn (opts : Options) (m : SocketMap) (threadID : ThreadID)
    (events : List Event) : Outcome SessionInterface :=
  if ¬ (m.size ≤ opts.threadCount) then ⟨m, events, Except.error Fatal.moreInstancesThanNeeded⟩
  else if ¬ (m.size ≠ 0) then ⟨m, events, Except.error Fatal.failedToCreateSocket⟩
  else
    match m.find threadID with
    | some info => ⟨m, events, Except.ok info.session⟩
    | none => ⟨m, events, Except.error Fatal.outOfRange⟩

/-- The function `RPCSession::instance(_threadID)` on the registry `m`, with `config` the
value of `Options::getDynamicOptions().getCurrentConfig()`. The case split on
`m.find threadID` is the pair of tests on `socketMap.count(_threadID)`. -/
def RPCSession_instance (opts : Options) (config : ClientConfig) (env : Env) (m : SocketMap)
    (threadID : ThreadID) : Outcome SessionInterface :=
  let currentConfigId := config.id
  match m.find threadID with
  | some info =>
    if info.configId ≠ currentConfigId then
      ⟨m, [], Except.error Fatal.sessionForAnotherClient⟩
    else checkedReturn opts m threadID []
  | none =>
    match findAvailable currentConfigId m with
    | some socket =>
      let moved := { socket.2 with isUsed := SessionStatus.Working }
      let m1 := (m.insert threadID moved).erase socket.1
      match m1.find threadID with
      | some info => ⟨m1, [], Except.ok info.session⟩
      | none => ⟨m1, [], Except.error Fatal.outOfRange⟩
    | none =>
      let o := runNewInstanceOfAClient opts env m threadID config
      match o.result with
      | Except.error f => ⟨o.map, Event.newInstance threadID config.id :: o.events, Except.error f⟩
      | Except.ok _ =>
        checkedReturn opts o.map threadID (Event.newInstance threadID config.id :: o.events)

/-- The function `RPCSession::sessionStart(_threadID)`. -/
def sessionStart (opts : Options) (config : ClientConfig) (env : Env) (m : SocketMap)
    (threadID : ThreadID) : Outcome Unit :=
  let o := RPCSession_instance opts config env m threadID
  match o.result with
  | Except.error f => ⟨o.map, o.events, Except.error f⟩
  | Except.ok _ =>
    if o.map.count threadID then
      ⟨o.map.setStatus threadID SessionStatus.Working, o.events, Except.ok ()⟩
    else ⟨o.map, o.events, Except.ok ()⟩

/-- The function `RPCSession::sessionEnd(_threadID, _status)`. With `ndebug = false` the
`assert(socketMap.count(_threadID))` is compiled in and aborts on an absent key. -/
def sessionEnd (ndebug : Bool) (m : SocketMap) (threadID : ThreadID)
    (status : SessionStatus) : Outcome Unit :=
  if !ndebug && !(m.count threadID) then ⟨m, [], Except.error Fatal.assertFailed⟩
  else if m.count threadID then ⟨m.setStatus threadID status, [], Except.ok ()⟩
  else ⟨m, [], Except.ok ()⟩

/-- The function `RPCSession::sessionStatus(_threadID)`. -/
def sessionStatus (m : SocketMap) (threadID : ThreadID) : SessionStatus :=
  match m.find threadID with
  | some info => info.isUsed
  | none => SessionStatus.NotExist

/-- Release of the pipe handle, `element.filePipe.release()`, on a list of entries. -/
def releasePipeRaw (k : ThreadID) :
    List (ThreadID × sessionInfo) → List (ThreadID × sessionInfo)
  | [] => []
  | (k', v') :: rest =>
    if k = k' then (k', { v' with filePipe := none }) :: rest
    else (k', v') :: releasePipeRaw k rest

/-- The function `closeSession(_threadID)`. The entry keeps its `session` field in the
model although the source releases that pointer too: the only caller, `clear`, removes
the entry before the registry can be read again. -/
def closeSession (m : SocketMap) (threadID : ThreadID) : Outcome Unit :=
  match m.find threadID with
  | none => ⟨m, [], Except.error Fatal.socketMapEmptyInClose⟩
  | some element =>
    if element.session.socketType = SocketType.IPC then
      ⟨⟨releasePipeRaw threadID m.entries⟩,
        [Event.pclose2 element.filePipe element.pipePid, Event.sleepSeconds 4,
          Event.removeAll element.tmpDir],
        Except.ok ()⟩
    else ⟨m, [], Except.ok ()⟩

/-- The backend addresses (`getSocketPath()`) of the entries, in iteration order. -/
def boundAddresses (m : SocketMap) : List String :=
  m.entries.map (fun p => p.2.session.socketPath)

/-- Number of `sleep_for` calls among the actions. -/
def sleepCount (events : List Event) : Nat :=
  events.countP (fun e => match e with
    | Event.sleepSeconds _ => true
    | _ => false)

/-- Number of `boost::filesystem::exists` calls among the actions. -/
def existsCount (events : List Event) : Nat :=
  events.countP (fun e => match e with
    | Event.fileExists _ => true
    | _ => false)

/-- A call of the public registry interface. -/
inductive Call where
  | acquire (threadID : ThreadID)
  | start (threadID : ThreadID)
  | release (threadID : ThreadID) (status : SessionStatus)

/-- One call together with what the process sees while it runs: the options, the
configuration currently in effect and the answers of the operating system. -/
structure Step where
  call : Call
  opts : Options
  config : ClientConfig
  env : Env

/-- Execution of one call on the registry `m`. -/
def runStep (ndebug : Bool) (m : SocketMap) (s : Step) : Outcome Unit :=
  match s.call with
  | Call.acquire t =>
    let o := RPCSession_instance s.opts s.config s.env m t
    match o.result with
    | Except.error f => ⟨o.map, o.events, Except.error f⟩
    | Except.ok _ => ⟨o.map, o.events, Except.ok ()⟩
  | Call.start t => sessionStart s.opts s.config s.env m t
  | Call.release t status => sessionEnd ndebug m t status

/-- Execution of a sequence of calls from the registry `m`. A fatal condition stops the
run: the outcome then holds the registry as the failing call left it. -/
def runCalls (ndebug : Bool) : SocketMap → List Step → Outcome Unit
  | m, [] => ⟨m, [], Except.ok ()⟩
  | m, s :: rest =>
    let o := runStep ndebug m s
    match o.result with
    | Except.error f => ⟨o.map, o.events, Except.error f⟩
    | Except.ok _ =>
      let r := runCalls ndebug o.map rest
      ⟨r.map, o.events ++ r.events, r.result⟩

/-- The vector `closingThreads` of `RPCSession::clear`: one thread per element of
`socketMap`, in iteration order, each running `closeSession(element.first)`. -/
def closingThreads (m : SocketMap) : List ThreadID :=
  m.entries.map (fun element => element.1)

/-- The teardown threads of `RPCSession::clear`, joined. Each thread works on the element
of its own key only, so their effects are composed one thread after the other, in the
order the threads were created. A fatal condition in a teardown stops the run. -/
def joinClosingThreads : SocketMap → List ThreadID → Outcome Unit
  | m, [] => ⟨m, [], Except.ok ()⟩
  | m, k :: rest =>
    let o := closeSession m k
    match o.result with
    | Except.error f => ⟨o.map, o.events, Except.error f⟩
    | Except.ok _ =>
      let r := joinClosingThreads o.map rest
      ⟨r.map, o.events ++ r.events, r.result⟩

/-- The function `RPCSession::clear()`: the teardown threads are created and joined, then
`socketMap.clear()` empties the registry. -/
def RPCSession_clear (m : SocketMap) : Outcome Unit :=
  let o := joinClosingThreads m (closingThreads m)
  match o.result with
  | Except.error f => ⟨o.map, o.events, Except.error f⟩
  | Except.ok _ => ⟨SocketMap.empty, o.events, Except.ok ()⟩

/-- The actions of one teardown on the entry `e`, as `closeSession` performs them. -/
def teardownActions (e : sessionInfo) : List Event :=
  if e.session.socketType = SocketType.IPC then
    [Event.pclose2 e.filePipe e.pipePid, Event.sleepSeconds 4, Event.removeAll e.tmpDir]
  else []

/-! ## Concrete data for evaluating the model -/

namespace Sample

/-- A network-address configuration with id 1 and addresses `A`, `B`, `C`. -/
def tcpConfig : ClientConfig := ⟨1, SocketType.TCP, "", "", ["A", "B", "C"]⟩

/-- A local-socket configuration with id 1. -/
def ipcConfig : ClientConfig := ⟨1, SocketType.IPC, "start.sh", "", []⟩

/-- Options with two worker threads and no override list. -/
def opts2 : Options := ⟨2, false, []⟩

/-- An operating system where the spawn succeeds and the socket file is there from the
third existence check on. -/
def env3 : Env := ⟨"/tmp/a", some (7, 100), fun i => decide (2 ≤ i)⟩

/-- An entry bound to the network address `addr` for configuration `c`. -/
def tcpEntry (addr : String) (c : ClientConfigID) (s : SessionStatus) : sessionInfo :=
  { sessionInfo.new none ⟨ImplKind.RPCImpl, SocketType.TCP, addr⟩ "" 0 c with isUsed := s }

/-- A registry with one `Working` entry of configuration 1 under the key `t1`. -/
def oneWorking : SocketMap := ⟨[("t1", tcpEntry "A" 1 SessionStatus.Working)]⟩

/-- A registry with a `Working` entry under `t1` and an `Available` one under `t3`, both of
configuration 1. -/
def workingAndAvailable : SocketMap :=
  ⟨[("t1", tcpEntry "A" 1 SessionStatus.Working), ("t3", tcpEntry "C" 1 SessionStatus.Available)]⟩

/-- Options with a single worker thread and no override list. -/
def opts1 : Options := ⟨1, false, []⟩

/-- One successful acquire by `t1` under the network-address configuration, with a single
worker thread configured. -/
def oneAcquire : List Step := [⟨Call.acquire "t1", opts1, tcpConfig, env3⟩]

/-- An attached-debug-socket configuration with id 1. -/
def debugConfig : ClientConfig := ⟨1, SocketType.IPCDebug, "", "/var/run/debug.ipc", []⟩

/-- Two acquires, by `t2` then by `t1`, under the network-address configuration. -/
def twoAcquires : List Step :=
  [⟨Call.acquire "t2", opts2, tcpConfig, env3⟩, ⟨Call.acquire "t1", opts2, tcpConfig, env3⟩]

/-- An operating system where the spawn succeeds and the socket file is there from the
26th existence check on, that is after the 25th sleep. -/
def env26 : Env := ⟨"/tmp/a", some (7, 100), fun i => decide (25 ≤ i)⟩

/-- An entry of the local-socket branch: pipe 7, pid 100, temporary directory `/tmp/a`. -/
def ipcEntry (s : SessionStatus) : sessionInfo :=
  { sessionInfo.new (some 7) ⟨ImplKind.RPCImpl, SocketType.IPC, "/tmp/a/geth.ipc"⟩ "/tmp/a" 100
      1 with isUsed := s }

/-- A registry with a network-address entry under `t1` and a local-socket entry under
`t2`. -/
def mixed : SocketMap :=
  ⟨[("t1", tcpEntry "A" 1 SessionStatus.Working), ("t2", ipcEntry SessionStatus.Available)]⟩

/-- A registry with `Available` entries of configuration 1 under `t1`, `t3` and `t4`. -/
def threeAvailable : SocketMap :=
  ⟨[("t1", tcpEntry "A" 1 SessionStatus.Available),
    ("t3", tcpEntry "C" 1 SessionStatus.Available),
    ("t4", tcpEntry "B" 1 SessionStatus.Available)]⟩

end Sample

end Retesteth

/-! ## Lemmas on the registry operations -/

namespace Retesteth

namespace SocketMap

/-- The key order used for insertion is the order of `String`. -/
theorem toList_lt_iff (a b : ThreadID) : a.data < b.data ↔ a < b :=
  String.lt_iff_toList_lt.symm

theorem ordered_iff (m : SocketMap) :
    m.ordered ↔ m.entries.Pairwise (fun a b => a.1 < b.1) := by
  unfold ordered
  constructor
  · intro h
    exact h.imp (fun hab => (toList_lt_iff _ _).mp hab)
  · intro h
    exact h.imp (fun hab => (toList_lt_iff _ _).mpr hab)

theorem mem_of_findRaw {k : ThreadID} {e : sessionInfo} {l : List (ThreadID × sessionInfo)}
    (h : findRaw k l = some e) : (k, e) ∈ l := by
  induction l with
  | nil => simp [findRaw] at h
  | cons hd rest ih =>
    obtain ⟨k', v'⟩ := hd
    by_cases hk : k = k'
    · subst hk
      simp [findRaw] at h
      simp [h]
    · simp [findRaw, hk] at h
      exact List.mem_cons_of_mem _ (ih h)

theorem findRaw_of_mem {k : ThreadID} {e : sessionInfo} {l : List (ThreadID × sessionInfo)}
    (hl : l.Pairwise (fun a b => a.1 < b.1)) (h : (k, e) ∈ l) : findRaw k l = some e := by
  induction l with
  | nil => simp at h
  | cons hd rest ih =>
    obtain ⟨k', v'⟩ := hd
    rw [List.pairwise_cons] at hl
    rcases List.mem_cons.mp h with heq | hmem
    · injection heq with h1 h2
      subst h1; subst h2
      simp [findRaw]
    · have hlt : k' < k := hl.1 (k, e) hmem
      have hne : k ≠ k' := fun hh => by subst hh; exact lt_irrefl _ hlt
      simp [findRaw, hne]
      exact ih hl.2 hmem

theorem findRaw_eq_none_iff {k : ThreadID} {l : List (ThreadID × sessionInfo)} :
    findRaw k l = none ↔ ∀ p ∈ l, p.1 ≠ k := by
  induction l with
  | nil => simp [findRaw]
  | cons hd rest ih =>
    obtain ⟨k', v'⟩ := hd
    by_cases hk : k = k'
    · subst hk; simp [findRaw]
    · have hk2 : ¬ k' = k := fun hh => hk hh.symm
      simp [findRaw, hk, hk2, ih]

theorem findRaw_insertRaw_self {k : ThreadID} {v : sessionInfo}
    {l : List (ThreadID × sessionInfo)} (h : findRaw k l = none) :
    findRaw k (insertRaw k v l) = some v := by
  induction l with
  | nil => simp [insertRaw, findRaw]
  | cons hd rest ih =>
    obtain ⟨k', v'⟩ := hd
    by_cases hk : k = k'
    · subst hk; simp [findRaw] at h
    · simp [findRaw, hk] at h
      by_cases hlt : k.data < k'.data
      · simp [insertRaw, hlt, findRaw]
      · simp [insertRaw, hlt, hk, findRaw, ih h]

theorem findRaw_insertRaw_ne {u k : ThreadID} {v : sessionInfo}
    (l : List (ThreadID × sessionInfo)) (hne : u ≠ k) :
    findRaw u (insertRaw k v l) = findRaw u l := by
  induction l with
  | nil => simp [insertRaw, findRaw, hne]
  | cons hd rest ih =>
    obtain ⟨k', v'⟩ := hd
    by_cases hlt : k.data < k'.data
    · simp [insertRaw, hlt, findRaw, hne]
    · by_cases hk : k = k'
      · simp [insertRaw, hlt, hk]
      · simp [insertRaw, hlt, hk, findRaw, ih]

theorem findRaw_eraseRaw_ne {u k : ThreadID} (l : List (ThreadID × sessionInfo))
    (hne : u ≠ k) : findRaw u (eraseRaw k l) = findRaw u l := by
  induction l with
  | nil => simp [eraseRaw]
  | cons hd rest ih =>
    obtain ⟨k', v'⟩ := hd
    by_cases hk : k = k'
    · subst hk; simp [eraseRaw, findRaw, hne]
    · simp [eraseRaw, hk, findRaw, ih]

theorem eraseRaw_sublist (k : ThreadID) (l : List (ThreadID × sessionInfo)) :
    (eraseRaw k l).Sublist l := by
  induction l with
  | nil => simp [eraseRaw]
  | cons hd rest ih =>
    obtain ⟨k', v'⟩ := hd
    by_cases hk : k = k'
    · simp [eraseRaw, hk]
    · simp [eraseRaw, hk, ih]

theorem findRaw_eraseRaw_self {k : ThreadID} {l : List (ThreadID × sessionInfo)}
    (hl : l.Pairwise (fun a b => a.1 < b.1)) : findRaw k (eraseRaw k l) = none := by
  induction l with
  | nil => simp [eraseRaw, findRaw]
  | cons hd rest ih =>
    obtain ⟨k', v'⟩ := hd
    rw [List.pairwise_cons] at hl
    by_cases hk : k = k'
    · subst hk
      simp only [eraseRaw, if_true]
      rw [findRaw_eq_none_iff]
      intro p hp hpk
      have := hl.1 p hp
      rw [hpk] at this
      exact lt_irrefl _ this
    · simp [eraseRaw, hk, findRaw, ih hl.2]

theorem length_insertRaw {k : ThreadID} {v : sessionInfo}
    {l : List (ThreadID × sessionInfo)} (h : findRaw k l = none) :
    (insertRaw k v l).length = l.length + 1 := by
  induction l with
  | nil => simp [insertRaw]
  | cons hd rest ih =>
    obtain ⟨k', v'⟩ := hd
    by_cases hk : k = k'
    · subst hk; simp [findRaw] at h
    · simp [findRaw, hk] at h
      by_cases hlt : k.data < k'.data
      · simp [insertRaw, hlt]
      · simp [insertRaw, hlt, hk, ih h]

theorem length_eraseRaw {k : ThreadID} {e : sessionInfo}
    {l : List (ThreadID × sessionInfo)} (h : findRaw k l = some e) :
    (eraseRaw k l).length + 1 = l.length := by
  induction l with
  | nil => simp [findRaw] at h
  | cons hd rest ih =>
    obtain ⟨k', v'⟩ := hd
    by_cases hk : k = k'
    · simp [eraseRaw, hk]
    · simp [findRaw, hk] at h
      simp [eraseRaw, hk, ih h]

theorem mem_insertRaw {k : ThreadID} {v : sessionInfo} {l : List (ThreadID × sessionInfo)}
    {p : ThreadID × sessionInfo} (h : p ∈ insertRaw k v l) : p = (k, v) ∨ p ∈ l := by
  induction l with
  | nil => simpa [insertRaw] using h
  | cons hd rest ih =>
    obtain ⟨k', v'⟩ := hd
    by_cases hlt : k.data < k'.data
    · simpa [insertRaw, hlt] using h
    · by_cases hk : k = k'
      · right; simpa [insertRaw, hlt, hk] using h
      · simp [insertRaw, hlt, hk] at h
        rcases h with h | h
        · right; simp [h]
        · rcases ih h with h1 | h1
          · left; exact h1
          · right; exact List.mem_cons_of_mem _ h1

theorem pairwise_insertRaw {k : ThreadID} {v : sessionInfo}
    {l : List (ThreadID × sessionInfo)} (hl : l.Pairwise (fun a b => a.1 < b.1)) :
    (insertRaw k v l).Pairwise (fun a b => a.1 < b.1) := by
  induction l with
  | nil => simp [insertRaw]
  | cons hd rest ih =>
    obtain ⟨k', v'⟩ := hd
    have hl0 := hl
    rw [List.pairwise_cons] at hl
    by_cases hlt : k.data < k'.data
    · have hlt2 : k < k' := (toList_lt_iff k k').mp hlt
      simp only [insertRaw, hlt, if_true]
      refine List.pairwise_cons.mpr ⟨?_, hl0⟩
      intro p hp
      rcases List.mem_cons.mp hp with h | h
      · rw [h]; exact hlt2
      · exact lt_trans hlt2 (hl.1 p h)
    · by_cases hk : k = k'
      · simpa [insertRaw, hlt, hk] using hl0
      · have hgt : k' < k := by
          have h1 : ¬ k < k' := fun hh => hlt ((toList_lt_iff k k').mpr hh)
          exact lt_of_le_of_ne (not_lt.mp h1) (fun hh => hk hh.symm)
        simp only [insertRaw, hlt, hk, if_false]
        refine List.pairwise_cons.mpr ⟨?_, ih hl.2⟩
        intro p hp
        rcases mem_insertRaw hp with h | h
        · rw [h]; exact hgt
        · exact hl.1 p h

theorem findRaw_setStatusRaw_self {k : ThreadID} {s : SessionStatus} {e : sessionInfo}
    {l : List (ThreadID × sessionInfo)} (h : findRaw k l = some e) :
    findRaw k (setStatusRaw k s l) = some { e with isUsed := s } := by
  induction l with
  | nil => simp [findRaw] at h
  | cons hd rest ih =>
    obtain ⟨k', v'⟩ := hd
    by_cases hk : k = k'
    · subst hk
      simp [findRaw] at h
      simp [setStatusRaw, findRaw, h]
    · simp [findRaw, hk] at h
      simp [setStatusRaw, hk, findRaw, ih h]

theorem findRaw_setStatusRaw_ne {u k : ThreadID} {s : SessionStatus}
    (l : List (ThreadID × sessionInfo)) (hne : u ≠ k) :
    findRaw u (setStatusRaw k s l) = findRaw u l := by
  induction l with
  | nil => simp [setStatusRaw]
  | cons hd rest ih =>
    obtain ⟨k', v'⟩ := hd
    by_cases hk : k = k'
    · subst hk; simp [setStatusRaw, findRaw, hne]
    · simp [setStatusRaw, hk, findRaw, ih]

theorem map_fst_setStatusRaw (k : ThreadID) (s : SessionStatus)
    (l : List (ThreadID × sessionInfo)) :
    (setStatusRaw k s l).map Prod.fst = l.map Prod.fst := by
  induction l with
  | nil => simp [setStatusRaw]
  | cons hd rest ih =>
    obtain ⟨k', v'⟩ := hd
    by_cases hk : k = k'
    · simp [setStatusRaw, hk]
    · simp [setStatusRaw, hk, ih]

theorem length_setStatusRaw (k : ThreadID) (s : SessionStatus)
    (l : List (ThreadID × sessionInfo)) : (setStatusRaw k s l).length = l.length := by
  have h := congrArg List.length (map_fst_setStatusRaw k s l)
  simpa using h

theorem findAvailable_spec {c : ClientConfigID} {m : SocketMap} {p : ThreadID × sessionInfo}
    (h : findAvailable c m = some p) :
    p ∈ m.entries ∧ p.2.isUsed = SessionStatus.Available ∧ p.2.configId = c := by
  unfold findAvailable at h
  have h1 := List.find?_some h
  have h2 := List.mem_of_find?_eq_some h
  simp at h1
  exact ⟨h2, h1.1, h1.2⟩

theorem findAvailable_eq_none {c : ClientConfigID} {m : SocketMap}
    (h : findAvailable c m = none) :
    ∀ p ∈ m.entries, ¬ (p.2.isUsed = SessionStatus.Available ∧ p.2.configId = c) := by
  unfold findAvailable at h
  rw [List.find?_eq_none] at h
  intro p hp hc
  exact h p hp (by simp [hc.1, hc.2])

theorem findAvailable_isSome {c : ClientConfigID} {m : SocketMap} {k : ThreadID}
    {e : sessionInfo} (hf : m.find k = some e) (h1 : e.isUsed = SessionStatus.Available)
    (h2 : e.configId = c) : ∃ p, findAvailable c m = some p := by
  cases hfa : findAvailable c m with
  | some p => exact ⟨p, rfl⟩
  | none => exact absurd ⟨h1, h2⟩ (findAvailable_eq_none hfa (k, e) (mem_of_findRaw hf))

end SocketMap

end Retesteth

/-! ## `RPCSession::instance` -/

namespace Retesteth

open SocketMap

theorem instance_reuse_eq (opts : Options) (config : ClientConfig) (env : Env)
    (m : SocketMap) (t : ThreadID) (p : ThreadID × sessionInfo)
    (hfind : m.find t = none) (hfa : findAvailable config.id m = some p) :
    RPCSession_instance opts config env m t =
      ⟨(m.insert t { p.2 with isUsed := SessionStatus.Working }).erase p.1, [],
        Except.ok p.2.session⟩ := by
  have hne : t ≠ p.1 := by
    intro hh
    have hmem := (findAvailable_spec hfa).1
    have h1 := (findRaw_eq_none_iff.mp hfind) p hmem
    exact h1 hh.symm
  have hft : ((m.insert t { p.2 with isUsed := SessionStatus.Working }).erase p.1).find t =
      some { p.2 with isUsed := SessionStatus.Working } := by
    show findRaw t (eraseRaw p.1 (insertRaw t _ m.entries)) = _
    rw [findRaw_eraseRaw_ne _ hne]
    exact findRaw_insertRaw_self hfind
  unfold RPCSession_instance
  simp only [hfind, hfa, hft]

theorem instance_fresh_eq (opts : Options) (config : ClientConfig) (env : Env)
    (m : SocketMap) (t : ThreadID)
    (hfind : m.find t = none) (hfa : findAvailable config.id m = none) :
    RPCSession_instance opts config env m t =
      match (runNewInstanceOfAClient opts env m t config).result with
      | Except.error f =>
        ⟨(runNewInstanceOfAClient opts env m t config).map,
          Event.newInstance t config.id :: (runNewInstanceOfAClient opts env m t config).events,
          Except.error f⟩
      | Except.ok _ =>
        checkedReturn opts (runNewInstanceOfAClient opts env m t config).map t
          (Event.newInstance t config.id ::
            (runNewInstanceOfAClient opts env m t config).events) := by
  unfold RPCSession_instance
  simp only [hfind, hfa]

/-- The launcher either leaves the registry as it is or inserts one entry for the thread,
built by the constructor for the given configuration. -/
theorem runNewInstance_map (opts : Options) (env : Env) (m : SocketMap) (t : ThreadID)
    (config : ClientConfig) :
    (runNewInstanceOfAClient opts env m t config).map = m ∨
    ∃ pipe session tmpDir pid,
      (runNewInstanceOfAClient opts env m t config).map =
        m.insert t (sessionInfo.new pipe session tmpDir pid config.id) := by
  unfold runNewInstanceOfAClient
  cases config.socketType with
  | IPC =>
    cases hp : env.popen with
    | none => left; simp
    | some fp =>
      obtain ⟨fp, pid⟩ := fp
      by_cases hw : (waitForIpc (env.tmpDir ++ "/geth.ipc") env.ipcExists 25 0).1 > 0
      · right; simp only [hw, if_true]; exact ⟨_, _, _, _, rfl⟩
      · left; simp only [hw, if_false]
  | TCP =>
    simp only
    cases (if opts.nodesoverride.length > 0 then opts.nodesoverride
      else config.addressObject).find? (fun addr => !(addressInUse m addr)) with
    | none => left; rfl
    | some addr => right; exact ⟨_, _, _, _, rfl⟩
  | IPCDebug => right; exact ⟨_, _, _, _, rfl⟩
  | TransitionTool => right; exact ⟨_, _, _, _, rfl⟩
  | Other => left; rfl

theorem checkedReturn_map (opts : Options) (m : SocketMap) (t : ThreadID)
    (events : List Event) : (checkedReturn opts m t events).map = m := by
  unfold checkedReturn
  split
  · rfl
  · split
    · rfl
    · split <;> rfl

theorem checkedReturn_events (opts : Options) (m : SocketMap) (t : ThreadID)
    (events : List Event) : (checkedReturn opts m t events).events = events := by
  unfold checkedReturn
  split
  · rfl
  · split
    · rfl
    · split <;> rfl

theorem checkedReturn_ok {opts : Options} {m : SocketMap} {t : ThreadID}
    {events : List Event} {s : SessionInterface}
    (h : (checkedReturn opts m t events).result = Except.ok s) :
    m.size ≤ opts.threadCount ∧ ∃ info, m.find t = some info ∧ info.session = s := by
  unfold checkedReturn at h
  split at h
  · simp at h
  · split at h
    · simp at h
    · rename_i h1 h2
      split at h
      · rename_i info hinfo
        simp at h
        exact ⟨not_not.mp h1, info, hinfo, h⟩
      · simp at h

end Retesteth

/-! ## Size of the registry along a run -/

namespace Retesteth

open SocketMap

theorem runNewInstance_error_map {opts : Options} {env : Env} {m : SocketMap} {t : ThreadID}
    {config : ClientConfig} {f : Fatal}
    (h : (runNewInstanceOfAClient opts env m t config).result = Except.error f) :
    (runNewInstanceOfAClient opts env m t config).map = m := by
  unfold runNewInstanceOfAClient at h ⊢
  cases hst : config.socketType with
  | IPC =>
    simp only [hst] at h ⊢
    cases hp : env.popen with
    | none => rfl
    | some fp =>
      obtain ⟨fp, pid⟩ := fp
      simp only [hp] at h ⊢
      by_cases hw : (waitForIpc (env.tmpDir ++ "/geth.ipc") env.ipcExists 25 0).1 > 0
      · simp [hw] at h
      · simp only [hw, if_false]
  | TCP =>
    simp only [hst] at h ⊢
    cases hf : (if opts.nodesoverride.length > 0 then opts.nodesoverride
      else config.addressObject).find? (fun addr => !(addressInUse m addr)) with
    | none => rfl
    | some addr => simp [hf] at h
  | IPCDebug => simp [hst] at h
  | TransitionTool => simp [hst] at h
  | Other => rfl

theorem reuse_size {m : SocketMap} {t : ThreadID} {p : ThreadID × sessionInfo}
    {v : sessionInfo} (hfind : m.find t = none) (hmem : p ∈ m.entries) :
    ((m.insert t v).erase p.1).size = m.size := by
  have hne : p.1 ≠ t := (findRaw_eq_none_iff.mp hfind) p hmem
  have hsome : ∃ e, findRaw p.1 m.entries = some e := by
    cases h : findRaw p.1 m.entries with
    | some e => exact ⟨e, rfl⟩
    | none => exact absurd rfl ((findRaw_eq_none_iff.mp h) p hmem)
  obtain ⟨e, he⟩ := hsome
  have h1 : findRaw p.1 (insertRaw t v m.entries) = some e := by
    rw [findRaw_insertRaw_ne _ hne]
    exact he
  have h2 := length_eraseRaw h1
  have h3 := length_insertRaw (v := v) hfind
  show (eraseRaw p.1 (insertRaw t v m.entries)).length = m.entries.length
  omega

/-- A returning `RPCSession::instance` keeps the registry within a bound it was within. -/
theorem instance_ok_size {opts : Options} {config : ClientConfig} {env : Env}
    {m : SocketMap} {t : ThreadID} {s : SessionInterface}
    (hsize : m.size ≤ opts.threadCount)
    (hok : (RPCSession_instance opts config env m t).result = Except.ok s) :
    (RPCSession_instance opts config env m t).map.size ≤ opts.threadCount := by
  cases hfind : m.find t with
  | some info =>
    unfold RPCSession_instance at hok ⊢
    simp only [hfind] at hok ⊢
    by_cases hc : info.configId ≠ config.id
    · simp [hc] at hok
    · simp only [hc, if_false] at hok ⊢
      rw [checkedReturn_map]
      exact hsize
  | none =>
    cases hfa : findAvailable config.id m with
    | some p =>
      rw [instance_reuse_eq opts config env m t p hfind hfa]
      show ((m.insert t _).erase p.1).size ≤ _
      rw [reuse_size hfind (findAvailable_spec hfa).1]
      exact hsize
    | none =>
      rw [instance_fresh_eq opts config env m t hfind hfa] at hok ⊢
      cases hres : (runNewInstanceOfAClient opts env m t config).result with
      | error f => simp [hres] at hok
      | ok u0 =>
        simp only [hres] at hok ⊢
        rw [checkedReturn_map]
        exact (checkedReturn_ok hok).1

theorem sessionStart_ok_size {opts : Options} {config : ClientConfig} {env : Env}
    {m : SocketMap} {t : ThreadID} (hsize : m.size ≤ opts.threadCount)
    (hok : (sessionStart opts config env m t).result = Except.ok ()) :
    (sessionStart opts config env m t).map.size ≤ opts.threadCount := by
  unfold sessionStart at hok ⊢
  cases hres : (RPCSession_instance opts config env m t).result with
  | error f => simp [hres] at hok
  | ok s =>
    have h := instance_ok_size hsize hres
    simp only [hres]
    split
    · show (setStatusRaw _ _ _).length ≤ _
      rw [length_setStatusRaw]
      exact h
    · exact h

theorem sessionEnd_size (ndebug : Bool) (m : SocketMap) (t : ThreadID) (st : SessionStatus) :
    (sessionEnd ndebug m t st).map.size = m.size := by
  unfold sessionEnd
  split
  · rfl
  · split
    · exact length_setStatusRaw _ _ _
    · rfl

theorem runStep_ok_size {ndebug : Bool} {m : SocketMap} {s : Step}
    (hsize : m.size ≤ s.opts.threadCount)
    (hok : (runStep ndebug m s).result = Except.ok ()) :
    (runStep ndebug m s).map.size ≤ s.opts.threadCount := by
  unfold runStep at hok ⊢
  cases hc : s.call with
  | acquire t =>
    simp only [hc] at hok ⊢
    cases hres : (RPCSession_instance s.opts s.config s.env m t).result with
    | error f => simp [hres] at hok
    | ok b =>
      simp only [hres]
      exact instance_ok_size hsize hres
  | start t =>
    simp only [hc] at hok ⊢
    exact sessionStart_ok_size hsize hok
  | release t st =>
    simp only [hc]
    rw [sessionEnd_size]
    exact hsize

/-- Along a run in which every call returns, the registry stays within the configured
number of worker threads. -/
theorem runCalls_ok_size (ndebug : Bool) (n : Nat) (steps : List Step) :
    ∀ m : SocketMap, m.size ≤ n → (∀ s ∈ steps, s.opts.threadCount = n) →
      (runCalls ndebug m steps).result = Except.ok () →
      (runCalls ndebug m steps).map.size ≤ n := by
  induction steps with
  | nil =>
    intro m hm _ _
    exact hm
  | cons s rest ih =>
    intro m hm hall hok
    have hs : s.opts.threadCount = n := hall s (List.mem_cons_self _ _)
    have hrest : ∀ s1 ∈ rest, s1.opts.threadCount = n :=
      fun s1 h1 => hall s1 (List.mem_cons_of_mem _ h1)
    unfold runCalls at hok ⊢
    cases hres : (runStep ndebug m s).result with
    | error f => simp [hres] at hok
    | ok u0 =>
      simp only [hres] at hok ⊢
      have h1 : (runStep ndebug m s).map.size ≤ n := by
        have := @runStep_ok_size ndebug m s (by rw [hs]; exact hm)
          (by rw [hres])
        rw [hs] at this
        exact this
      exact ih _ h1 hrest hok

end Retesteth

/-! ## Shape of the registry after `RPCSession::instance` -/

namespace Retesteth

open SocketMap

/-- The registry after `RPCSession::instance` is the old one, the old one with one
`Available` entry moved to the key of the caller, or what the launcher left. -/
theorem instance_map_cases (opts : Options) (config : ClientConfig) (env : Env)
    (m : SocketMap) (t : ThreadID) :
    (RPCSession_instance opts config env m t).map = m ∨
    (m.find t = none ∧ ∃ p, findAvailable config.id m = some p ∧
      (RPCSession_instance opts config env m t).map =
        (m.insert t { p.2 with isUsed := SessionStatus.Working }).erase p.1) ∨
    (m.find t = none ∧ findAvailable config.id m = none ∧
      (RPCSession_instance opts config env m t).map =
        (runNewInstanceOfAClient opts env m t config).map) := by
  cases hfind : m.find t with
  | some info =>
    left
    unfold RPCSession_instance
    simp only [hfind]
    split
    · rfl
    · exact checkedReturn_map _ _ _ _
  | none =>
    cases hfa : findAvailable config.id m with
    | some p =>
      right; left
      refine ⟨rfl, p, rfl, ?_⟩
      rw [instance_reuse_eq opts config env m t p hfind hfa]
    | none =>
      right; right
      refine ⟨rfl, rfl, ?_⟩
      rw [instance_fresh_eq opts config env m t hfind hfa]
      cases hres : (runNewInstanceOfAClient opts env m t config).result with
      | error f => rfl
      | ok u0 => exact checkedReturn_map _ _ _ _

end Retesteth

/-! ## The network-address branch of the launcher -/

namespace Retesteth

open SocketMap

theorem addressInUse_eq_true {m : SocketMap} {c : String} :
    addressInUse m c = true ↔ ∃ p ∈ m.entries, p.2.session.socketPath = c := by
  unfold addressInUse
  simp [List.any_eq_true]

theorem addressInUse_eq_false {m : SocketMap} {c : String} :
    addressInUse m c = false ↔ ∀ p ∈ m.entries, p.2.session.socketPath ≠ c := by
  rw [← Bool.not_eq_true, addressInUse_eq_true]
  simp

theorem find?_append_first {α : Type} (q : α → Bool) (pre : List α) (a : α) (post : List α)
    (hpre : ∀ c ∈ pre, q c = false) (ha : q a = true) :
    (pre ++ a :: post).find? q = some a := by
  induction pre with
  | nil => simp [List.find?, ha]
  | cons c rest ih =>
    have hc : q c = false := hpre c (List.mem_cons_self _ _)
    have hrest : ∀ d ∈ rest, q d = false := fun d hd => hpre d (List.mem_cons_of_mem _ hd)
    simp [List.find?, hc, ih hrest]

/-- The candidate list read by the launcher: the override list when it has an element,
else the address list of the configuration. -/
theorem candidates_eq (opts : Options) (config : ClientConfig) :
    (if opts.nodesoverride.length > 0 then opts.nodesoverride else config.addressObject) =
      (if opts.nodesoverride ≠ [] then opts.nodesoverride else config.addressObject) := by
  cases h : opts.nodesoverride with
  | nil => simp
  | cons x xs => simp

/-- The network-address branch, when the scan of the candidates finds `a`. -/
theorem runNewInstance_tcp_some {opts : Options} {env : Env} {m : SocketMap} {t : ThreadID}
    {config : ClientConfig} {a : String} (htcp : config.socketType = SocketType.TCP)
    (hsel : (if opts.nodesoverride.length > 0 then opts.nodesoverride
      else config.addressObject).find? (fun addr => !(addressInUse m addr)) = some a) :
    runNewInstanceOfAClient opts env m t config =
      ⟨m.insert t (sessionInfo.new none ⟨ImplKind.RPCImpl, SocketType.TCP, a⟩ "" 0 config.id),
        [], Except.ok ()⟩ := by
  unfold runNewInstanceOfAClient
  simp only [htcp, hsel]

/-- The network-address branch, when every candidate is bound already. -/
theorem runNewInstance_tcp_none {opts : Options} {env : Env} {m : SocketMap} {t : ThreadID}
    {config : ClientConfig} (htcp : config.socketType = SocketType.TCP)
    (hsel : (if opts.nodesoverride.length > 0 then opts.nodesoverride
      else config.addressObject).find? (fun addr => !(addressInUse m addr)) = none) :
    runNewInstanceOfAClient opts env m t config = ⟨m, [], Except.ok ()⟩ := by
  unfold runNewInstanceOfAClient
  simp only [htcp, hsel]

end Retesteth

/-! ## Distinct backend addresses along a run -/

namespace Retesteth

open SocketMap

theorem perm_insertRaw {k : ThreadID} {v : sessionInfo} {l : List (ThreadID × sessionInfo)}
    (h : findRaw k l = none) : (insertRaw k v l).Perm ((k, v) :: l) := by
  induction l with
  | nil => simp [insertRaw]
  | cons hd rest ih =>
    obtain ⟨k', v'⟩ := hd
    by_cases hk : k = k'
    · subst hk; simp [findRaw] at h
    · simp [findRaw, hk] at h
      by_cases hlt : k.data < k'.data
      · simp [insertRaw, hlt]
      · simp only [insertRaw, hlt, hk, if_false]
        exact ((ih h).cons (k', v')).trans (List.Perm.swap _ _ _)

theorem perm_eraseRaw {k : ThreadID} {e : sessionInfo} {l : List (ThreadID × sessionInfo)}
    (h : findRaw k l = some e) : l.Perm ((k, e) :: eraseRaw k l) := by
  induction l with
  | nil => simp [findRaw] at h
  | cons hd rest ih =>
    obtain ⟨k', v'⟩ := hd
    by_cases hk : k = k'
    · subst hk
      simp [findRaw] at h
      subst h
      simp [eraseRaw]
    · simp [findRaw, hk] at h
      simp only [eraseRaw, hk, if_false]
      exact ((ih h).cons (k', v')).trans (List.Perm.swap _ _ _)

theorem pairwise_eraseRaw {k : ThreadID} {l : List (ThreadID × sessionInfo)}
    (hl : l.Pairwise (fun a b => a.1 < b.1)) :
    (eraseRaw k l).Pairwise (fun a b => a.1 < b.1) :=
  hl.sublist (eraseRaw_sublist k l)

theorem pairwise_setStatusRaw {k : ThreadID} {s : SessionStatus}
    {l : List (ThreadID × sessionInfo)} (hl : l.Pairwise (fun a b => a.1 < b.1)) :
    (setStatusRaw k s l).Pairwise (fun a b => a.1 < b.1) := by
  have h1 : (l.map Prod.fst).Pairwise (fun a b => a < b) := List.pairwise_map.mpr hl
  rw [← map_fst_setStatusRaw k s l] at h1
  exact List.pairwise_map.mp h1

theorem boundAddresses_setStatus (m : SocketMap) (k : ThreadID) (s : SessionStatus) :
    boundAddresses (m.setStatus k s) = boundAddresses m := by
  unfold boundAddresses setStatus
  simp only
  induction m.entries with
  | nil => simp [setStatusRaw]
  | cons hd rest ih =>
    obtain ⟨k', v'⟩ := hd
    by_cases hk : k = k'
    · simp [setStatusRaw, hk]
    · simp [setStatusRaw, hk, ih]

/-- The invariant carried along a run: keys strictly increasing and backend addresses
pairwise distinct. -/
theorem inv_empty :
    SocketMap.empty.entries.Pairwise (fun a b => a.1 < b.1) ∧
      (boundAddresses SocketMap.empty).Nodup := by
  simp [SocketMap.empty, boundAddresses]

theorem inv_setStatus {m : SocketMap} (k : ThreadID) (s : SessionStatus)
    (h : m.entries.Pairwise (fun a b => a.1 < b.1) ∧ (boundAddresses m).Nodup) :
    (m.setStatus k s).entries.Pairwise (fun a b => a.1 < b.1) ∧
      (boundAddresses (m.setStatus k s)).Nodup := by
  refine ⟨pairwise_setStatusRaw h.1, ?_⟩
  rw [boundAddresses_setStatus]
  exact h.2

theorem inv_reuse {m : SocketMap} {t : ThreadID} {p : ThreadID × sessionInfo}
    {s : SessionStatus}
    (h : m.entries.Pairwise (fun a b => a.1 < b.1) ∧ (boundAddresses m).Nodup)
    (hfind : m.find t = none) (hmem : p ∈ m.entries) :
    ((m.insert t { p.2 with isUsed := s }).erase p.1).entries.Pairwise
        (fun a b => a.1 < b.1) ∧
      (boundAddresses ((m.insert t { p.2 with isUsed := s }).erase p.1)).Nodup := by
  refine ⟨pairwise_eraseRaw (pairwise_insertRaw h.1), ?_⟩
  have hne : p.1 ≠ t := (findRaw_eq_none_iff.mp hfind) p hmem
  have hfk : findRaw p.1 m.entries = some p.2 := findRaw_of_mem h.1 hmem
  have h1 : findRaw p.1 (insertRaw t { p.2 with isUsed := s } m.entries) = some p.2 := by
    rw [findRaw_insertRaw_ne _ hne]
    exact hfk
  have hp1 := perm_eraseRaw h1
  have hp2 := perm_insertRaw (v := { p.2 with isUsed := s }) hfind
  have hp3 := (hp1.symm.trans hp2).map (fun q : ThreadID × sessionInfo => q.2.session.socketPath)
  simp only [List.map_cons] at hp3
  have hp4 := hp3.cons_inv
  unfold boundAddresses
  exact (hp4.nodup_iff).mpr h.2

theorem inv_insert_fresh {m : SocketMap} {t : ThreadID} {v : sessionInfo}
    (h : m.entries.Pairwise (fun a b => a.1 < b.1) ∧ (boundAddresses m).Nodup)
    (hfind : m.find t = none) (hnew : v.session.socketPath ∉ boundAddresses m) :
    (m.insert t v).entries.Pairwise (fun a b => a.1 < b.1) ∧
      (boundAddresses (m.insert t v)).Nodup := by
  refine ⟨pairwise_insertRaw h.1, ?_⟩
  have hp := (perm_insertRaw (v := v) hfind).map
    (fun q : ThreadID × sessionInfo => q.2.session.socketPath)
  have hcons : ((t, v) :: m.entries).map
      (fun q : ThreadID × sessionInfo => q.2.session.socketPath) =
      v.session.socketPath :: boundAddresses m := rfl
  rw [hcons] at hp
  exact (hp.nodup_iff).mpr (List.nodup_cons.mpr ⟨hnew, h.2⟩)

theorem inv_instance {opts : Options} {config : ClientConfig} {env : Env} {m : SocketMap}
    {t : ThreadID} (htcp : config.socketType = SocketType.TCP)
    (h : m.entries.Pairwise (fun a b => a.1 < b.1) ∧ (boundAddresses m).Nodup) :
    (RPCSession_instance opts config env m t).map.entries.Pairwise (fun a b => a.1 < b.1) ∧
      (boundAddresses (RPCSession_instance opts config env m t).map).Nodup := by
  rcases instance_map_cases opts config env m t with h1 | ⟨ht, p, hfa, h1⟩ | ⟨ht, _, h1⟩
  · rw [h1]; exact h
  · rw [h1]
    exact inv_reuse h ht (findAvailable_spec hfa).1
  · rw [h1]
    cases hsel : (if opts.nodesoverride.length > 0 then opts.nodesoverride
        else config.addressObject).find? (fun addr => !(addressInUse m addr)) with
    | none =>
      rw [runNewInstance_tcp_none htcp hsel]
      exact h
    | some a =>
      rw [runNewInstance_tcp_some htcp hsel]
      apply inv_insert_fresh h ht
      have hq := List.find?_some hsel
      simp only [Bool.not_eq_true'] at hq
      have hq2 := addressInUse_eq_false.mp hq
      intro hmem
      unfold boundAddresses at hmem
      obtain ⟨q, hq3, hq4⟩ := List.mem_map.mp hmem
      exact hq2 q hq3 hq4

theorem sessionStart_map (opts : Options) (config : ClientConfig) (env : Env)
    (m : SocketMap) (t : ThreadID) :
    (sessionStart opts config env m t).map = (RPCSession_instance opts config env m t).map ∨
    (sessionStart opts config env m t).map =
      (RPCSession_instance opts config env m t).map.setStatus t SessionStatus.Working := by
  unfold sessionStart
  cases hres : (RPCSession_instance opts config env m t).result with
  | error f =>
    left
    simp only [hres]
  | ok b =>
    simp only [hres]
    split
    · right; rfl
    · left; rfl

theorem inv_runStep {ndebug : Bool} {m : SocketMap} {s : Step}
    (htcp : s.config.socketType = SocketType.TCP)
    (h : m.entries.Pairwise (fun a b => a.1 < b.1) ∧ (boundAddresses m).Nodup) :
    (runStep ndebug m s).map.entries.Pairwise (fun a b => a.1 < b.1) ∧
      (boundAddresses (runStep ndebug m s).map).Nodup := by
  have hi : ∀ t : ThreadID,
      (RPCSession_instance s.opts s.config s.env m t).map.entries.Pairwise
          (fun a b => a.1 < b.1) ∧
        (boundAddresses (RPCSession_instance s.opts s.config s.env m t).map).Nodup :=
    fun t => inv_instance htcp h
  unfold runStep
  cases hc : s.call with
  | acquire t =>
    simp only
    cases hres : (RPCSession_instance s.opts s.config s.env m t).result with
    | error f => exact hi t
    | ok b => exact hi t
  | start t =>
    simp only
    rcases sessionStart_map s.opts s.config s.env m t with h1 | h1
    · rw [h1]; exact hi t
    · rw [h1]; exact inv_setStatus _ _ (hi t)
  | release t st =>
    simp only
    unfold sessionEnd
    split
    · exact h
    · split
      · exact inv_setStatus _ _ h
      · exact h

theorem inv_runCalls (ndebug : Bool) (steps : List Step) :
    ∀ m : SocketMap,
      (m.entries.Pairwise (fun a b => a.1 < b.1) ∧ (boundAddresses m).Nodup) →
      (∀ s ∈ steps, s.config.socketType = SocketType.TCP) →
      (runCalls ndebug m steps).map.entries.Pairwise (fun a b => a.1 < b.1) ∧
        (boundAddresses (runCalls ndebug m steps).map).Nodup := by
  induction steps with
  | nil =>
    intro m hm _
    exact hm
  | cons s rest ih =>
    intro m hm hall
    have hs := hall s (List.mem_cons_self _ _)
    have hrest : ∀ s1 ∈ rest, s1.config.socketType = SocketType.TCP :=
      fun s1 h1 => hall s1 (List.mem_cons_of_mem _ h1)
    have h1 := @inv_runStep ndebug m s hs hm
    unfold runCalls
    cases hres : (runStep ndebug m s).result with
    | error f =>
      simp only [hres]
      exact h1
    | ok u0 =>
      simp only [hres]
      exact ih _ h1 hrest

end Retesteth

/-! ## The readiness polling of the local-socket branch -/

namespace Retesteth

open SocketMap

/-- The loop leaves `maxSeconds` positive exactly when one of the first `n` existence
checks it makes (out of up to `n + 1`) finds the file. -/
theorem waitForIpc_pos_iff (path : String) (ex : Nat → Bool) (n : Nat) :
    ∀ c : Nat, (waitForIpc path ex n c).1 > 0 ↔ ∃ i, i < n ∧ ex (c + i) = true := by
  induction n with
  | zero =>
    intro c
    unfold waitForIpc
    split <;> simp
  | succ n ih =>
    intro c
    unfold waitForIpc
    by_cases h : ex c = true
    · simp only [h, if_true]
      constructor
      · intro _
        exact ⟨0, Nat.succ_pos n, by simpa using h⟩
      · intro _
        exact Int.natCast_pos.mpr (Nat.succ_pos n)
    · have hf : ex c = false := by simpa using h
      simp only [hf, Bool.false_eq_true, if_false]
      rw [ih (c + 1)]
      constructor
      · rintro ⟨i, hi, hex⟩
        refine ⟨i + 1, Nat.succ_lt_succ hi, ?_⟩
        rw [← hex]
        congr 1
        omega
      · rintro ⟨i, hi, hex⟩
        cases i with
        | zero => exact absurd hex (by simpa using h)
        | succ j =>
          refine ⟨j, Nat.lt_of_succ_lt_succ hi, ?_⟩
          rw [← hex]
          congr 1
          omega

/-- The loop sleeps at most `n` times and checks the file once more than it sleeps. -/
theorem waitForIpc_counts (path : String) (ex : Nat → Bool) (n : Nat) :
    ∀ c : Nat, sleepCount (waitForIpc path ex n c).2 ≤ n ∧
      existsCount (waitForIpc path ex n c).2 = sleepCount (waitForIpc path ex n c).2 + 1 := by
  induction n with
  | zero =>
    intro c
    unfold waitForIpc
    split <;> simp [sleepCount, existsCount]
  | succ n ih =>
    intro c
    unfold waitForIpc
    by_cases h : ex c = true
    · simp [h, sleepCount, existsCount]
    · obtain ⟨h1, h2⟩ := ih (c + 1)
      have hf : ex c = false := by simpa using h
      simp only [hf, Bool.false_eq_true, if_false]
      simp only [sleepCount, existsCount] at h1 h2 ⊢
      simp only [List.countP_cons]
      constructor
      · simp
        omega
      · simp
        omega

/-- The local-socket branch with a started process: the launch fails with the "took too
long" condition exactly when the file is absent at each of the first 25 existence
checks, and sleeps at most 25 times for one second before that. -/
theorem runNewInstance_ipc_tookTooLong_iff (opts : Options) (env : Env) (m : SocketMap)
    (t : ThreadID) (config : ClientConfig) (fp : FilePtr) (pid : Int)
    (hipc : config.socketType = SocketType.IPC) (hp : env.popen = some (fp, pid)) :
    ((runNewInstanceOfAClient opts env m t config).result =
        Except.error Fatal.clientTookTooLong ↔ ∀ i, i < 25 → env.ipcExists i = false) ∧
      ((runNewInstanceOfAClient opts env m t config).result = Except.ok () ↔
        ∃ i, i < 25 ∧ env.ipcExists i = true) := by
  have hiff := waitForIpc_pos_iff (env.tmpDir ++ "/geth.ipc") env.ipcExists 25 0
  simp only [Nat.zero_add] at hiff
  unfold runNewInstanceOfAClient
  simp only [hipc, hp]
  by_cases hw : (waitForIpc (env.tmpDir ++ "/geth.ipc") env.ipcExists 25 0).1 > 0
  · simp only [hw, if_true]
    obtain ⟨i, hi, hex⟩ := hiff.mp hw
    constructor
    · constructor
      · intro h; cases h
      · intro h
        rw [h i hi] at hex
        cases hex
    · constructor
      · intro _; exact ⟨i, hi, hex⟩
      · intro _; trivial
  · simp only [hw, if_false]
    have hnone : ¬ ∃ i, i < 25 ∧ env.ipcExists i = true := fun h => hw (hiff.mpr h)
    constructor
    · constructor
      · intro _ i hi
        cases hex : env.ipcExists i with
        | false => rfl
        | true => exact absurd ⟨i, hi, hex⟩ hnone
      · intro _; trivial
    · constructor
      · intro h; cases h
      · intro h; exact absurd h hnone

/-- What `closeSession` does for a key that is present. -/
theorem closeSession_of_find {m : SocketMap} {t : ThreadID} {e : sessionInfo}
    (he : m.find t = some e) :
    (closeSession m t).result = Except.ok () ∧
      (closeSession m t).events =
        if e.session.socketType = SocketType.IPC then
          [Event.pclose2 e.filePipe e.pipePid, Event.sleepSeconds 4,
            Event.removeAll e.tmpDir]
        else [] := by
  unfold closeSession
  simp only [he]
  split <;> exact ⟨rfl, rfl⟩

end Retesteth

/-! ## `RPCSession::clear` -/

namespace Retesteth

open SocketMap

theorem findRaw_releasePipeRaw_ne {u k : ThreadID} (l : List (ThreadID × sessionInfo))
    (hne : u ≠ k) : findRaw u (releasePipeRaw k l) = findRaw u l := by
  induction l with
  | nil => simp [releasePipeRaw]
  | cons hd rest ih =>
    obtain ⟨k', v'⟩ := hd
    by_cases hk : k = k'
    · subst hk; simp [releasePipeRaw, findRaw, hne]
    · simp [releasePipeRaw, hk, findRaw, ih]

/-- A teardown leaves the entries of all other keys as they are. -/
theorem closeSession_find_ne (m : SocketMap) {u k : ThreadID} (hne : u ≠ k) :
    (closeSession m k).map.find u = m.find u := by
  unfold closeSession
  cases hf : m.find k with
  | none => rfl
  | some e =>
    simp only
    split
    · exact findRaw_releasePipeRaw_ne _ hne
    · rfl

/-- Teardowns of a list of entries with strictly increasing keys, each still in the
registry as listed: none of them fails and their actions are those of the entries, in
order. -/
theorem joinClosingThreads_entries (l : List (ThreadID × sessionInfo)) :
    ∀ m : SocketMap, l.Pairwise (fun a b => a.1 < b.1) →
      (∀ p ∈ l, m.find p.1 = some p.2) →
      (joinClosingThreads m (l.map (fun element => element.1))).result = Except.ok () ∧
        (joinClosingThreads m (l.map (fun element => element.1))).events =
          l.flatMap (fun p => teardownActions p.2) := by
  induction l with
  | nil =>
    intro m _ _
    exact ⟨rfl, rfl⟩
  | cons hd rest ih =>
    intro m hl hfind
    rw [List.pairwise_cons] at hl
    have hhd : m.find hd.1 = some hd.2 := hfind hd (List.mem_cons_self _ _)
    obtain ⟨hr, hev⟩ := closeSession_of_find hhd
    have hrest : ∀ p ∈ rest, (closeSession m hd.1).map.find p.1 = some p.2 := by
      intro p hp
      have hne : p.1 ≠ hd.1 := fun hh => by
        have := hl.1 p hp
        rw [hh] at this
        exact lt_irrefl _ this
      rw [closeSession_find_ne m hne]
      exact hfind p (List.mem_cons_of_mem _ hp)
    obtain ⟨h1, h2⟩ := ih (closeSession m hd.1).map hl.2 hrest
    simp only [List.map_cons, joinClosingThreads, hr, List.flatMap_cons]
    refine ⟨h1, ?_⟩
    rw [h2, hev]
    rfl

end Retesteth

/-! ## `RPCSession::sessionStart` -/

namespace Retesteth

open SocketMap

theorem setStatusRaw_same {k : ThreadID} {s : SessionStatus} {e : sessionInfo}
    {l : List (ThreadID × sessionInfo)} (h : findRaw k l = some e) (hs : e.isUsed = s) :
    setStatusRaw k s l = l := by
  induction l with
  | nil => rfl
  | cons hd rest ih =>
    obtain ⟨k', v'⟩ := hd
    by_cases hk : k = k'
    · subst hk
      simp [findRaw] at h
      subst h
      simp only [setStatusRaw, if_true]
      rw [← hs]
    · simp [findRaw, hk] at h
      simp only [setStatusRaw, hk, if_false]
      rw [ih h]

/-- A returning `RPCSession::instance` leaves an entry for the caller that belongs to the
configuration in effect and holds the returned backend. -/
theorem instance_ok_find {opts : Options} {config : ClientConfig} {env : Env}
    {m : SocketMap} {t : ThreadID} {b : SessionInterface}
    (hok : (RPCSession_instance opts config env m t).result = Except.ok b) :
    ∃ e, (RPCSession_instance opts config env m t).map.find t = some e ∧
      e.configId = config.id ∧ e.session = b := by
  cases hfind : m.find t with
  | some info =>
    unfold RPCSession_instance at hok ⊢
    simp only [hfind] at hok ⊢
    by_cases hc : info.configId ≠ config.id
    · simp [hc] at hok
    · simp only [hc, if_false] at hok ⊢
      obtain ⟨_, info2, hinfo2, hs⟩ := checkedReturn_ok hok
      rw [checkedReturn_map]
      rw [hfind] at hinfo2
      injection hinfo2 with h3
      subst h3
      exact ⟨info, hfind, not_not.mp hc, hs⟩
  | none =>
    cases hfa : findAvailable config.id m with
    | some p =>
      rw [instance_reuse_eq opts config env m t p hfind hfa] at hok ⊢
      have hne : t ≠ p.1 := by
        intro hh
        exact (findRaw_eq_none_iff.mp hfind) p (findAvailable_spec hfa).1 hh.symm
      have hft : ((m.insert t { p.2 with isUsed := SessionStatus.Working }).erase p.1).find t =
          some { p.2 with isUsed := SessionStatus.Working } := by
        show findRaw t (eraseRaw p.1 (insertRaw t _ m.entries)) = _
        rw [findRaw_eraseRaw_ne _ hne]
        exact findRaw_insertRaw_self hfind
      injection hok with hb
      exact ⟨_, hft, (findAvailable_spec hfa).2.2, hb⟩
    | none =>
      rw [instance_fresh_eq opts config env m t hfind hfa] at hok ⊢
      cases hres : (runNewInstanceOfAClient opts env m t config).result with
      | error f => simp [hres] at hok
      | ok u0 =>
        simp only [hres] at hok ⊢
        obtain ⟨_, info, hinfo, hsess⟩ := checkedReturn_ok hok
        rw [checkedReturn_map]
        rcases runNewInstance_map opts env m t config with hm | ⟨pipe, sess, dir, pid, hm⟩
        · rw [hm, hfind] at hinfo
          cases hinfo
        · rw [hm] at hinfo ⊢
          have hself : (m.insert t (sessionInfo.new pipe sess dir pid config.id)).find t =
              some (sessionInfo.new pipe sess dir pid config.id) :=
            findRaw_insertRaw_self hfind
          rw [hself] at hinfo
          injection hinfo with h3
          subst h3
          exact ⟨_, hself, rfl, hsess⟩

/-- A returning `sessionStart` leaves the caller with a `Working` entry of the
configuration in effect. -/
theorem sessionStart_ok_find {opts : Options} {config : ClientConfig} {env : Env}
    {m : SocketMap} {t : ThreadID}
    (hok : (sessionStart opts config env m t).result = Except.ok ()) :
    ∃ e, (sessionStart opts config env m t).map.find t = some e ∧
      e.isUsed = SessionStatus.Working ∧ e.configId = config.id := by
  unfold sessionStart at hok ⊢
  cases hres : (RPCSession_instance opts config env m t).result with
  | error f => simp [hres] at hok
  | ok b =>
    obtain ⟨e, he, hc, _⟩ := instance_ok_find hres
    have hcount : (RPCSession_instance opts config env m t).map.count t = true := by
      unfold SocketMap.count
      rw [he]
      rfl
    simp only [hres, hcount, if_true]
    exact ⟨{ e with isUsed := SessionStatus.Working }, findRaw_setStatusRaw_self he, rfl, hc⟩

/-- For a caller that already holds an entry of the configuration in effect,
`RPCSession::instance` is the size checks and the lookup. -/
theorem instance_existing_eq (opts : Options) (config : ClientConfig) (env : Env)
    {m : SocketMap} {t : ThreadID} {e : sessionInfo} (hfind : m.find t = some e)
    (hc : e.configId = config.id) :
    RPCSession_instance opts config env m t = checkedReturn opts m t [] := by
  unfold RPCSession_instance
  simp only [hfind, hc, ne_eq, not_true_eq_false, if_false]

/-- For a caller that already holds a `Working` entry of the configuration in effect,
`sessionStart` performs no action and leaves the registry as it is; it returns when the
registry is within the configured number of worker threads. -/
theorem sessionStart_existing_working (opts : Options) (config : ClientConfig) (env : Env)
    {m : SocketMap} {t : ThreadID} {e : sessionInfo} (hfind : m.find t = some e)
    (hw : e.isUsed = SessionStatus.Working) (hc : e.configId = config.id) :
    (sessionStart opts config env m t).events = [] ∧
      (sessionStart opts config env m t).map = m ∧
      (m.size ≤ opts.threadCount → (sessionStart opts config env m t).result = Except.ok ()) := by
  have hinst := instance_existing_eq opts config env hfind hc
  have hcount : m.count t = true := by
    unfold SocketMap.count
    rw [hfind]
    rfl
  have hset : m.setStatus t SessionStatus.Working = m := by
    unfold SocketMap.setStatus
    rw [setStatusRaw_same hfind hw]
  cases hres : (checkedReturn opts m t []).result with
  | error f =>
    have hs : sessionStart opts config env m t = ⟨m, [], Except.error f⟩ := by
      unfold sessionStart
      rw [hinst]
      simp only [hres, checkedReturn_map, checkedReturn_events]
    rw [hs]
    refine ⟨rfl, rfl, ?_⟩
    intro hsize
    exfalso
    unfold checkedReturn at hres
    have hpos : m.size ≠ 0 := by
      have := mem_of_findRaw hfind
      unfold SocketMap.size
      intro h0
      rw [List.length_eq_zero] at h0
      rw [h0] at this
      cases this
    simp [hsize, hpos, hfind] at hres
  | ok b =>
    have hs : sessionStart opts config env m t = ⟨m, [], Except.ok ()⟩ := by
      unfold sessionStart
      rw [hinst]
      simp only [hres, checkedReturn_map, checkedReturn_events, hcount, if_true, hset]
    rw [hs]
    exact ⟨rfl, rfl, fun _ => rfl⟩

end Retesteth

/-! ## The registry is determined by its contents -/

namespace Retesteth

open SocketMap

/-- In key order the first entry that passes a test has the smallest key among the
entries that pass it. -/
theorem find?_least_key {f : ThreadID × sessionInfo → Bool}
    {l : List (ThreadID × sessionInfo)} {p : ThreadID × sessionInfo}
    (hl : l.Pairwise (fun a b => a.1 < b.1)) (hp : l.find? f = some p) :
    ∀ q ∈ l, f q = true → p.1 ≤ q.1 := by
  induction l with
  | nil => simp at hp
  | cons hd rest ih =>
    rw [List.pairwise_cons] at hl
    intro q hq hfq
    by_cases hf : f hd = true
    · simp [List.find?, hf] at hp
      subst hp
      rcases List.mem_cons.mp hq with h | h
      · rw [h]
      · exact le_of_lt (hl.1 q h)
    · have hf2 : f hd = false := by simpa using hf
      simp [List.find?, hf2] at hp
      rcases List.mem_cons.mp hq with h | h
      · rw [h, hf2] at hfq
        cases hfq
      · exact ih hl.2 hp q h hfq

theorem findRaw_eq_none_of_lt {k : ThreadID} {l : List (ThreadID × sessionInfo)}
    (h : ∀ p ∈ l, k < p.1) : findRaw k l = none := by
  rw [findRaw_eq_none_iff]
  intro p hp hpk
  have := h p hp
  rw [hpk] at this
  exact lt_irrefl _ this

/-- Two lists with strictly increasing keys and the same lookups are the same list. -/
theorem entries_ext : ∀ (l1 l2 : List (ThreadID × sessionInfo)),
    l1.Pairwise (fun a b => a.1 < b.1) → l2.Pairwise (fun a b => a.1 < b.1) →
    (∀ u, findRaw u l1 = findRaw u l2) → l1 = l2
  | [], [], _, _, _ => rfl
  | [], (k2, v2) :: r2, _, _, h => by
    have := h k2
    simp [findRaw] at this
  | (k1, v1) :: r1, [], _, _, h => by
    have := h k1
    simp [findRaw] at this
  | (k1, v1) :: r1, (k2, v2) :: r2, h1, h2, h => by
    rw [List.pairwise_cons] at h1 h2
    have hk : k1 = k2 := by
      have ha : findRaw k1 ((k2, v2) :: r2) = some v1 := by
        rw [← h k1]; simp [findRaw]
      have hb : findRaw k2 ((k1, v1) :: r1) = some v2 := by
        rw [h k2]; simp [findRaw]
      have hle1 : k2 ≤ k1 := by
        rcases List.mem_cons.mp (mem_of_findRaw ha) with hh | hh
        · injection hh with hh1 _
          rw [hh1]
        · exact le_of_lt (h2.1 _ hh)
      have hle2 : k1 ≤ k2 := by
        rcases List.mem_cons.mp (mem_of_findRaw hb) with hh | hh
        · injection hh with hh1 _
          rw [hh1]
        · exact le_of_lt (h1.1 _ hh)
      exact le_antisymm hle2 hle1
    subst hk
    have hv : v1 = v2 := by
      have := h k1
      simp [findRaw] at this
      exact this
    subst hv
    have hrest : ∀ u, findRaw u r1 = findRaw u r2 := by
      intro u
      by_cases hu : u = k1
      · subst hu
        rw [findRaw_eq_none_of_lt h1.1, findRaw_eq_none_of_lt h2.1]
      · have := h u
        simpa [findRaw, hu] using this
    rw [entries_ext r1 r2 h1.2 h2.2 hrest]

/-- Two registry states with the same contents are the same state. -/
theorem SocketMap.ext_find {m1 m2 : SocketMap} (h1 : m1.ordered) (h2 : m2.ordered)
    (h : ∀ u, m1.find u = m2.find u) : m1 = m2 := by
  have he := entries_ext m1.entries m2.entries ((ordered_iff m1).mp h1)
    ((ordered_iff m2).mp h2) h
  cases m1
  cases m2
  simp only at he
  rw [he]

theorem insertRaw_present {k : ThreadID} {v e : sessionInfo}
    {l : List (ThreadID × sessionInfo)} (hl : l.Pairwise (fun a b => a.1 < b.1))
    (h : findRaw k l = some e) : insertRaw k v l = l := by
  induction l with
  | nil => simp [findRaw] at h
  | cons hd rest ih =>
    obtain ⟨k', v'⟩ := hd
    rw [List.pairwise_cons] at hl
    by_cases hk : k = k'
    · subst hk
      have hirr : ¬ k.data < k.data := fun hh => lt_irrefl k ((toList_lt_iff k k).mp hh)
      simp [insertRaw, hirr]
    · simp [findRaw, hk] at h
      have hlt : k' < k := hl.1 _ (mem_of_findRaw h)
      have hnlt : ¬ k.data < k'.data :=
        fun hh => lt_asymm hlt ((toList_lt_iff k k').mp hh)
      simp [insertRaw, hnlt, hk, ih hl.2 h]

/-- Lookups after an insertion into a list with strictly increasing keys. -/
theorem findRaw_insertRaw {u k : ThreadID} {v : sessionInfo}
    {l : List (ThreadID × sessionInfo)} (hl : l.Pairwise (fun a b => a.1 < b.1)) :
    findRaw u (insertRaw k v l) =
      if u = k then some ((findRaw k l).getD v) else findRaw u l := by
  by_cases hu : u = k
  · subst hu
    simp only [if_true]
    cases hf : findRaw u l with
    | none => simpa using findRaw_insertRaw_self hf
    | some e =>
      rw [insertRaw_present hl hf, hf]
      rfl
  · simp only [hu, if_false]
    exact findRaw_insertRaw_ne _ hu

/-- Insertions under different keys can be made in either order. -/
theorem SocketMap.insert_comm {m : SocketMap} (hord : m.ordered) {a b : ThreadID}
    (x y : sessionInfo) (hne : a ≠ b) :
    (m.insert a x).insert b y = (m.insert b y).insert a x := by
  have hS := (ordered_iff m).mp hord
  have h1 : (insertRaw a x m.entries).Pairwise (fun p q => p.1 < q.1) :=
    pairwise_insertRaw hS
  have h2 : (insertRaw b y m.entries).Pairwise (fun p q => p.1 < q.1) :=
    pairwise_insertRaw hS
  apply SocketMap.ext_find
  · exact (ordered_iff _).mpr (pairwise_insertRaw h1)
  · exact (ordered_iff _).mpr (pairwise_insertRaw h2)
  · intro u
    show findRaw u (insertRaw b y (insertRaw a x m.entries)) =
      findRaw u (insertRaw a x (insertRaw b y m.entries))
    rw [findRaw_insertRaw h1, findRaw_insertRaw h2, findRaw_insertRaw hS, findRaw_insertRaw hS,
      findRaw_insertRaw hS, findRaw_insertRaw hS]
    have hne2 : ¬ b = a := fun hh => hne hh.symm
    by_cases hub : u = b
    · subst hub
      simp [hne2]
    · by_cases hua : u = a
      · subst hua
        simp [hne]
      · simp [hub, hua]

end Retesteth

/-! ## Status writes under different keys -/

namespace Retesteth

open SocketMap

theorem findRaw_setStatusRaw {u k : ThreadID} {s : SessionStatus}
    (l : List (ThreadID × sessionInfo)) :
    findRaw u (setStatusRaw k s l) =
      if u = k then (findRaw k l).map (fun e => { e with isUsed := s })
      else findRaw u l := by
  by_cases hu : u = k
  · subst hu
    simp only [if_true]
    cases hf : findRaw u l with
    | some e => simpa using findRaw_setStatusRaw_self hf
    | none =>
      simp only [Option.map_none']
      rw [findRaw_eq_none_iff] at hf ⊢
      intro p hp
      have hk : p.1 ∈ (setStatusRaw u s l).map Prod.fst := List.mem_map.mpr ⟨p, hp, rfl⟩
      rw [map_fst_setStatusRaw] at hk
      obtain ⟨q, hq, hqp⟩ := List.mem_map.mp hk
      rw [← hqp]
      exact hf q hq
  · simp only [hu, if_false]
    exact findRaw_setStatusRaw_ne _ hu

/-- Status writes under different keys can be made in either order. -/
theorem SocketMap.setStatus_comm {m : SocketMap} (hord : m.ordered) {a b : ThreadID}
    (s1 s2 : SessionStatus) (hne : a ≠ b) :
    (m.setStatus a s1).setStatus b s2 = (m.setStatus b s2).setStatus a s1 := by
  have hS := (ordered_iff m).mp hord
  have h1 : (setStatusRaw a s1 m.entries).Pairwise (fun p q => p.1 < q.1) :=
    pairwise_setStatusRaw hS
  have h2 : (setStatusRaw b s2 m.entries).Pairwise (fun p q => p.1 < q.1) :=
    pairwise_setStatusRaw hS
  apply SocketMap.ext_find
  · exact (ordered_iff _).mpr (pairwise_setStatusRaw h1)
  · exact (ordered_iff _).mpr (pairwise_setStatusRaw h2)
  · intro u
    show findRaw u (setStatusRaw b s2 (setStatusRaw a s1 m.entries)) =
      findRaw u (setStatusRaw a s1 (setStatusRaw b s2 m.entries))
    simp only [findRaw_setStatusRaw]
    have hne2 : ¬ b = a := fun hh => hne hh.symm
    by_cases hub : u = b
    · subst hub
      simp [hne2]
    · by_cases hua : u = a
      · subst hua
        simp [hne]
      · simp [hub, hua]

end Retesteth

/-! ## Claims -/

namespace Retesteth

open SocketMap

/-- C1: if thread `t` already owns an entry whose `configId` differs from the id of the
configuration in effect, `RPCSession::instance` fails fatally ("A session opened for
another client id!"): it returns no backend, performs no action at all, so launches no
client, and leaves the registry as it was. -/
theorem instance_config_mismatch_fatal (opts : Options) (config : ClientConfig) (env : Env)
    (m : SocketMap) (t : ThreadID) (info : sessionInfo)
    (hfind : m.find t = some info) (hne : info.configId ≠ config.id) :
    (RPCSession_instance opts config env m t).result =
        Except.error Fatal.sessionForAnotherClient ∧
      (RPCSession_instance opts config env m t).events = [] ∧
      (RPCSession_instance opts config env m t).map = m := by
  unfold RPCSession_instance
  simp only [hfind, hne, ne_eq, not_false_eq_true, if_true, and_self]

theorem instance_config_mismatch_fatal_witness :
    (RPCSession_instance Sample.opts2 { Sample.tcpConfig with id := 2 } Sample.env3
        Sample.oneWorking "t1").result = Except.error Fatal.sessionForAnotherClient ∧
      (RPCSession_instance Sample.opts2 { Sample.tcpConfig with id := 2 } Sample.env3
        Sample.oneWorking "t1").events = [] ∧
      (RPCSession_instance Sample.opts2 { Sample.tcpConfig with id := 2 } Sample.env3
        Sample.oneWorking "t1").map = Sample.oneWorking :=
  instance_config_mismatch_fatal Sample.opts2 { Sample.tcpConfig with id := 2 } Sample.env3
    Sample.oneWorking "t1" (Sample.tcpEntry "A" 1 SessionStatus.Working)
    (by decide) (by decide)

/-- C2: in a registry where thread `t` has no entry and some entry is `Available` with the
`configId` of the configuration in effect, `RPCSession::instance` performs no action (no
launch) and returns the backend of one such entry, held until then under a key `k`;
afterwards `t` maps to that entry with status `Working` and all other fields as before,
`k` has no entry, every other key maps to what it mapped to before, and the size of the
registry is unchanged. -/
theorem instance_reuse_rekeys (opts : Options) (config : ClientConfig) (env : Env)
    (m : SocketMap) (t : ThreadID) (hord : m.ordered) (hfind : m.find t = none)
    (hav : ∃ p ∈ m.entries,
      p.2.isUsed = SessionStatus.Available ∧ p.2.configId = config.id) :
    ∃ k e, m.find k = some e ∧ e.isUsed = SessionStatus.Available ∧
      e.configId = config.id ∧
      (RPCSession_instance opts config env m t).events = [] ∧
      (RPCSession_instance opts config env m t).result = Except.ok e.session ∧
      (RPCSession_instance opts config env m t).map.find t =
        some { e with isUsed := SessionStatus.Working } ∧
      (RPCSession_instance opts config env m t).map.find k = none ∧
      (∀ u, u ≠ t → u ≠ k →
        (RPCSession_instance opts config env m t).map.find u = m.find u) ∧
      (RPCSession_instance opts config env m t).map.size = m.size := by
  have hordS := (ordered_iff m).mp hord
  obtain ⟨q, hq, hq1, hq2⟩ := hav
  cases hfa : findAvailable config.id m with
  | none => exact absurd ⟨hq1, hq2⟩ (findAvailable_eq_none hfa q hq)
  | some p =>
    obtain ⟨hmem, hp1, hp2⟩ := findAvailable_spec hfa
    have hfk : findRaw p.1 m.entries = some p.2 := findRaw_of_mem hordS hmem
    have hne : t ≠ p.1 := by
      intro hh
      rw [← hh] at hfk
      have : findRaw t m.entries = none := hfind
      rw [this] at hfk
      cases hfk
    have hne2 : p.1 ≠ t := fun hh => hne hh.symm
    rw [instance_reuse_eq opts config env m t p hfind hfa]
    refine ⟨p.1, p.2, hfk, hp1, hp2, rfl, rfl, ?_, ?_, ?_, ?_⟩
    · show findRaw t (eraseRaw p.1 (insertRaw t _ m.entries)) = _
      rw [findRaw_eraseRaw_ne _ hne]
      exact findRaw_insertRaw_self hfind
    · show findRaw p.1 (eraseRaw p.1 (insertRaw t _ m.entries)) = none
      exact findRaw_eraseRaw_self (pairwise_insertRaw hordS)
    · intro u hu1 hu2
      show findRaw u (eraseRaw p.1 (insertRaw t _ m.entries)) = findRaw u m.entries
      rw [findRaw_eraseRaw_ne _ hu2, findRaw_insertRaw_ne _ hu1]
    · show (eraseRaw p.1 (insertRaw t _ m.entries)).length = m.entries.length
      have h1 : findRaw p.1
          (insertRaw t { p.2 with isUsed := SessionStatus.Working } m.entries) = some p.2 := by
        rw [findRaw_insertRaw_ne _ hne2]
        exact hfk
      have h2 := length_eraseRaw h1
      have h3 := length_insertRaw (v := { p.2 with isUsed := SessionStatus.Working }) hfind
      omega

theorem instance_reuse_rekeys_witness :
    ∃ k e, Sample.workingAndAvailable.find k = some e ∧
      e.isUsed = SessionStatus.Available ∧ e.configId = Sample.tcpConfig.id ∧
      (RPCSession_instance Sample.opts2 Sample.tcpConfig Sample.env3
        Sample.workingAndAvailable "t2").events = [] ∧
      (RPCSession_instance Sample.opts2 Sample.tcpConfig Sample.env3
        Sample.workingAndAvailable "t2").result = Except.ok e.session ∧
      (RPCSession_instance Sample.opts2 Sample.tcpConfig Sample.env3
        Sample.workingAndAvailable "t2").map.find "t2" =
        some { e with isUsed := SessionStatus.Working } ∧
      (RPCSession_instance Sample.opts2 Sample.tcpConfig Sample.env3
        Sample.workingAndAvailable "t2").map.find k = none ∧
      (∀ u, u ≠ "t2" → u ≠ k →
        (RPCSession_instance Sample.opts2 Sample.tcpConfig Sample.env3
          Sample.workingAndAvailable "t2").map.find u = Sample.workingAndAvailable.find u) ∧
      (RPCSession_instance Sample.opts2 Sample.tcpConfig Sample.env3
        Sample.workingAndAvailable "t2").map.size = Sample.workingAndAvailable.size :=
  instance_reuse_rekeys Sample.opts2 Sample.tcpConfig Sample.env3
    Sample.workingAndAvailable "t2" (by decide) (by decide) (by decide)

/-- C3: in a registry where thread `t` has no entry and no entry is `Available` with the
`configId` of the configuration in effect, an `RPCSession::instance` call that returns
a backend has called the launcher and leaves the registry with exactly one more entry;
the new entry is keyed by `t`, carries the id of the configuration in effect and the
returned backend, and every other key maps to what it mapped to before. -/
theorem instance_fresh_adds_one (opts : Options) (config : ClientConfig) (env : Env)
    (m : SocketMap) (t : ThreadID) (s : SessionInterface) (hfind : m.find t = none)
    (hnone : ∀ p ∈ m.entries,
      ¬ (p.2.isUsed = SessionStatus.Available ∧ p.2.configId = config.id))
    (hok : (RPCSession_instance opts config env m t).result = Except.ok s) :
    (RPCSession_instance opts config env m t).map.size = m.size + 1 ∧
      (∃ e, (RPCSession_instance opts config env m t).map.find t = some e ∧
        e.configId = config.id ∧ e.session = s) ∧
      (∀ u, u ≠ t → (RPCSession_instance opts config env m t).map.find u = m.find u) ∧
      Event.newInstance t config.id ∈ (RPCSession_instance opts config env m t).events := by
  have hfa : findAvailable config.id m = none := by
    cases h : findAvailable config.id m with
    | none => rfl
    | some p =>
      obtain ⟨h1, h2, h3⟩ := findAvailable_spec h
      exact absurd ⟨h2, h3⟩ (hnone p h1)
  rw [instance_fresh_eq opts config env m t hfind hfa] at hok ⊢
  cases hres : (runNewInstanceOfAClient opts env m t config).result with
  | error f => simp [hres] at hok
  | ok u0 =>
    simp only [hres] at hok ⊢
    obtain ⟨_, info, hinfo, hsess⟩ := checkedReturn_ok hok
    rw [checkedReturn_map, checkedReturn_events]
    rcases runNewInstance_map opts env m t config with hm | ⟨pipe, sess, dir, pid, hm⟩
    · rw [hm, hfind] at hinfo
      cases hinfo
    · rw [hm] at hinfo ⊢
      have hself : (m.insert t (sessionInfo.new pipe sess dir pid config.id)).find t =
          some (sessionInfo.new pipe sess dir pid config.id) := findRaw_insertRaw_self hfind
      rw [hself] at hinfo
      cases hinfo
      refine ⟨length_insertRaw hfind, ⟨_, hself, rfl, hsess⟩, ?_, by simp⟩
      intro u hu
      exact findRaw_insertRaw_ne _ hu

theorem instance_fresh_adds_one_witness :
    (RPCSession_instance Sample.opts2 Sample.tcpConfig Sample.env3 Sample.oneWorking
        "t2").map.size = Sample.oneWorking.size + 1 ∧
      (∃ e, (RPCSession_instance Sample.opts2 Sample.tcpConfig Sample.env3 Sample.oneWorking
          "t2").map.find "t2" = some e ∧
        e.configId = Sample.tcpConfig.id ∧
        e.session = ⟨ImplKind.RPCImpl, SocketType.TCP, "B"⟩) ∧
      (∀ u, u ≠ "t2" →
        (RPCSession_instance Sample.opts2 Sample.tcpConfig Sample.env3 Sample.oneWorking
          "t2").map.find u = Sample.oneWorking.find u) ∧
      Event.newInstance "t2" Sample.tcpConfig.id ∈
        (RPCSession_instance Sample.opts2 Sample.tcpConfig Sample.env3 Sample.oneWorking
          "t2").events :=
  instance_fresh_adds_one Sample.opts2 Sample.tcpConfig Sample.env3 Sample.oneWorking "t2"
    ⟨ImplKind.RPCImpl, SocketType.TCP, "B"⟩ (by decide) (by decide) (by decide)

/-- C4: run any sequence of acquire, start and release calls from the empty registry, all
under the same configured worker-thread count `n`, every call returning (a fatal
condition ends the run). Then a further acquire that returns leaves at most `n` entries
in the registry; and if that acquire has to launch and the launch brings the number of
entries above `n`, the acquire fails fatally ("Retesteth connect to more instances than
needed!") instead of returning. -/
theorem capacity_bound (ndebug : Bool) (n : Nat) (steps : List Step) (opts : Options)
    (config : ClientConfig) (env : Env) (t : ThreadID)
    (hsteps : ∀ s ∈ steps, s.opts.threadCount = n) (hopts : opts.threadCount = n)
    (hrun : (runCalls ndebug SocketMap.empty steps).result = Except.ok ()) :
    (∀ b, (RPCSession_instance opts config env
          (runCalls ndebug SocketMap.empty steps).map t).result = Except.ok b →
        (RPCSession_instance opts config env
          (runCalls ndebug SocketMap.empty steps).map t).map.size ≤ n) ∧
      ((runCalls ndebug SocketMap.empty steps).map.find t = none →
        findAvailable config.id (runCalls ndebug SocketMap.empty steps).map = none →
        n < (runNewInstanceOfAClient opts env
          (runCalls ndebug SocketMap.empty steps).map t config).map.size →
        (RPCSession_instance opts config env
          (runCalls ndebug SocketMap.empty steps).map t).result =
            Except.error Fatal.moreInstancesThanNeeded) := by
  have hinv : (runCalls ndebug SocketMap.empty steps).map.size ≤ n :=
    runCalls_ok_size ndebug n steps SocketMap.empty (Nat.zero_le _) hsteps hrun
  constructor
  · intro b hb
    have h := @instance_ok_size opts config env _ t b
      (by rw [hopts]; exact hinv) hb
    rw [hopts] at h
    exact h
  · intro hfind hfa hgt
    rw [instance_fresh_eq opts config env _ t hfind hfa]
    cases hres : (runNewInstanceOfAClient opts env
        (runCalls ndebug SocketMap.empty steps).map t config).result with
    | error f =>
      rw [runNewInstance_error_map hres] at hgt
      omega
    | ok u0 =>
      simp only []
      unfold checkedReturn
      have hnot : ¬ ((runNewInstanceOfAClient opts env
          (runCalls ndebug SocketMap.empty steps).map t config).map.size ≤
            opts.threadCount) := by
        rw [hopts]
        omega
      simp only [hnot, not_false_eq_true, if_true]

theorem capacity_bound_witness :
    (∀ b, (RPCSession_instance Sample.opts1 Sample.tcpConfig Sample.env3
          (runCalls true SocketMap.empty Sample.oneAcquire).map "t2").result = Except.ok b →
        (RPCSession_instance Sample.opts1 Sample.tcpConfig Sample.env3
          (runCalls true SocketMap.empty Sample.oneAcquire).map "t2").map.size ≤ 1) ∧
      ((runCalls true SocketMap.empty Sample.oneAcquire).map.find "t2" = none →
        findAvailable Sample.tcpConfig.id
          (runCalls true SocketMap.empty Sample.oneAcquire).map = none →
        1 < (runNewInstanceOfAClient Sample.opts1 Sample.env3
          (runCalls true SocketMap.empty Sample.oneAcquire).map "t2"
            Sample.tcpConfig).map.size →
        (RPCSession_instance Sample.opts1 Sample.tcpConfig Sample.env3
          (runCalls true SocketMap.empty Sample.oneAcquire).map "t2").result =
            Except.error Fatal.moreInstancesThanNeeded) :=
  capacity_bound true 1 Sample.oneAcquire Sample.opts1 Sample.tcpConfig Sample.env3 "t2"
    (by decide) (by decide) (by decide)

/-- C5: `RPCSession::instance` called for thread `t` leaves every entry that is `Working`
and held by another thread `u` exactly where and as it was: after the call, whatever its
outcome, `u` still maps to the same entry (same backend, `configId`, status and process
resources). -/
theorem instance_keeps_working_entries (opts : Options) (config : ClientConfig) (env : Env)
    (m : SocketMap) (t u : ThreadID) (e : sessionInfo) (hord : m.ordered) (hne : u ≠ t)
    (hfind : m.find u = some e) (hworking : e.isUsed = SessionStatus.Working) :
    (RPCSession_instance opts config env m t).map.find u = some e := by
  have hordS := (ordered_iff m).mp hord
  rcases instance_map_cases opts config env m t with h | ⟨ht, p, hfa, h⟩ | ⟨ht, _, h⟩
  · rw [h]; exact hfind
  · rw [h]
    obtain ⟨hmem, hp1, _⟩ := findAvailable_spec hfa
    have hfk : findRaw p.1 m.entries = some p.2 := findRaw_of_mem hordS hmem
    have hup : u ≠ p.1 := by
      intro hh
      rw [← hh] at hfk
      have h2 : findRaw u m.entries = some e := hfind
      rw [h2] at hfk
      injection hfk with h3
      rw [← h3, hworking] at hp1
      cases hp1
    show findRaw u (eraseRaw p.1 (insertRaw t _ m.entries)) = some e
    rw [findRaw_eraseRaw_ne _ hup, findRaw_insertRaw_ne _ hne]
    exact hfind
  · rw [h]
    rcases runNewInstance_map opts env m t config with hm | ⟨pipe, sess, dir, pid, hm⟩
    · rw [hm]; exact hfind
    · rw [hm]
      show findRaw u (insertRaw t _ m.entries) = some e
      rw [findRaw_insertRaw_ne _ hne]
      exact hfind

theorem instance_keeps_working_entries_witness :
    (RPCSession_instance Sample.opts2 Sample.tcpConfig Sample.env3
      Sample.workingAndAvailable "t2").map.find "t1" =
        some (Sample.tcpEntry "A" 1 SessionStatus.Working) :=
  instance_keeps_working_entries Sample.opts2 Sample.tcpConfig Sample.env3
    Sample.workingAndAvailable "t2" "t1" (Sample.tcpEntry "A" 1 SessionStatus.Working)
    (by decide) (by decide) (by decide) (by decide)

/-- C6, as stated, fails: on the empty registry an acquire by `t1` under the
network-address configuration launches a new entry and returns its backend, and
`sessionStatus` of `t1` is then `NotExist`, not `Working`. -/
theorem fresh_entry_status_counterexample :
    SocketMap.empty.find "t1" = none ∧
      findAvailable Sample.tcpConfig.id SocketMap.empty = none ∧
      (RPCSession_instance Sample.opts2 Sample.tcpConfig Sample.env3 SocketMap.empty
        "t1").result = Except.ok ⟨ImplKind.RPCImpl, SocketType.TCP, "A"⟩ ∧
      sessionStatus (RPCSession_instance Sample.opts2 Sample.tcpConfig Sample.env3
        SocketMap.empty "t1").map "t1" ≠ SessionStatus.Working := by
  decide

/-- C6, amended: whenever `RPCSession::instance` has to launch a new entry for `t` (no
entry for `t`, no `Available` entry of the configuration in effect) and returns, the
registry holds an entry for `t` with the returned backend, and the status of that entry,
as reported by `sessionStatus` right after the call, is `NotExist`, the value set by the
constructor of `sessionInfo`. -/
theorem fresh_entry_status_notExist (opts : Options) (config : ClientConfig) (env : Env)
    (m : SocketMap) (t : ThreadID) (s : SessionInterface) (hfind : m.find t = none)
    (hnone : ∀ p ∈ m.entries,
      ¬ (p.2.isUsed = SessionStatus.Available ∧ p.2.configId = config.id))
    (hok : (RPCSession_instance opts config env m t).result = Except.ok s) :
    (∃ e, (RPCSession_instance opts config env m t).map.find t = some e ∧
        e.session = s ∧ e.isUsed = SessionStatus.NotExist) ∧
      sessionStatus (RPCSession_instance opts config env m t).map t =
        SessionStatus.NotExist := by
  have hfa : findAvailable config.id m = none := by
    cases h : findAvailable config.id m with
    | none => rfl
    | some p =>
      obtain ⟨h1, h2, h3⟩ := findAvailable_spec h
      exact absurd ⟨h2, h3⟩ (hnone p h1)
  rw [instance_fresh_eq opts config env m t hfind hfa] at hok ⊢
  cases hres : (runNewInstanceOfAClient opts env m t config).result with
  | error f => simp [hres] at hok
  | ok u0 =>
    simp only [hres] at hok ⊢
    obtain ⟨_, info, hinfo, hsess⟩ := checkedReturn_ok hok
    rw [checkedReturn_map]
    rcases runNewInstance_map opts env m t config with hm | ⟨pipe, sess, dir, pid, hm⟩
    · rw [hm, hfind] at hinfo
      cases hinfo
    · rw [hm] at hinfo ⊢
      have hself : (m.insert t (sessionInfo.new pipe sess dir pid config.id)).find t =
          some (sessionInfo.new pipe sess dir pid config.id) := findRaw_insertRaw_self hfind
      rw [hself] at hinfo
      cases hinfo
      refine ⟨⟨_, hself, hsess, rfl⟩, ?_⟩
      unfold sessionStatus
      rw [hself]
      rfl

theorem fresh_entry_status_notExist_witness :
    (∃ e, (RPCSession_instance Sample.opts2 Sample.ipcConfig Sample.env3
          Sample.oneWorking "t2").map.find "t2" = some e ∧
        e.session = ⟨ImplKind.RPCImpl, SocketType.IPC, "/tmp/a/geth.ipc"⟩ ∧
        e.isUsed = SessionStatus.NotExist) ∧
      sessionStatus (RPCSession_instance Sample.opts2 Sample.ipcConfig Sample.env3
        Sample.oneWorking "t2").map "t2" = SessionStatus.NotExist :=
  fresh_entry_status_notExist Sample.opts2 Sample.ipcConfig Sample.env3 Sample.oneWorking
    "t2" ⟨ImplKind.RPCImpl, SocketType.IPC, "/tmp/a/geth.ipc"⟩ (by decide) (by decide)
    (by decide)

/-- C7: for a network-address configuration the launcher reads as candidates the override
list when that is non-empty and the address list of the configuration otherwise; if the
candidates are `pre ++ a :: post`, every address in `pre` is the backend address of some
entry of the registry and `a` is the backend address of none, then the launcher returns
without any process or file action and the entry it inserts for `t` is bound to `a`,
every other key keeping its entry. With candidates `A`, `B`, `C` and entries bound to
`A` and `C`, the new entry is bound to `B`. -/
theorem tcp_address_selection (opts : Options) (env : Env) (m : SocketMap) (t : ThreadID)
    (config : ClientConfig) (pre : List String) (a : String) (post : List String)
    (htcp : config.socketType = SocketType.TCP) (hfind : m.find t = none)
    (hcand : (if opts.nodesoverride ≠ [] then opts.nodesoverride
      else config.addressObject) = pre ++ a :: post)
    (hpre : ∀ c ∈ pre, ∃ p ∈ m.entries, p.2.session.socketPath = c)
    (ha : ∀ p ∈ m.entries, p.2.session.socketPath ≠ a) :
    (runNewInstanceOfAClient opts env m t config).result = Except.ok () ∧
      (runNewInstanceOfAClient opts env m t config).events = [] ∧
      (runNewInstanceOfAClient opts env m t config).map.find t =
        some (sessionInfo.new none ⟨ImplKind.RPCImpl, SocketType.TCP, a⟩ "" 0 config.id) ∧
      (∀ u, u ≠ t → (runNewInstanceOfAClient opts env m t config).map.find u = m.find u) := by
  have hsel : (if opts.nodesoverride.length > 0 then opts.nodesoverride
      else config.addressObject).find? (fun addr => !(addressInUse m addr)) = some a := by
    rw [candidates_eq, hcand]
    apply find?_append_first
    · intro c hc
      have := addressInUse_eq_true.mpr (hpre c hc)
      simp [this]
    · have := addressInUse_eq_false.mpr ha
      simp [this]
  rw [runNewInstance_tcp_some htcp hsel]
  refine ⟨rfl, rfl, findRaw_insertRaw_self hfind, ?_⟩
  intro u hu
  exact findRaw_insertRaw_ne _ hu

theorem tcp_address_selection_witness :
    (runNewInstanceOfAClient Sample.opts2 Sample.env3 Sample.workingAndAvailable "t2"
        Sample.tcpConfig).result = Except.ok () ∧
      (runNewInstanceOfAClient Sample.opts2 Sample.env3 Sample.workingAndAvailable "t2"
        Sample.tcpConfig).events = [] ∧
      (runNewInstanceOfAClient Sample.opts2 Sample.env3 Sample.workingAndAvailable "t2"
        Sample.tcpConfig).map.find "t2" =
        some (sessionInfo.new none ⟨ImplKind.RPCImpl, SocketType.TCP, "B"⟩ "" 0
          Sample.tcpConfig.id) ∧
      (∀ u, u ≠ "t2" →
        (runNewInstanceOfAClient Sample.opts2 Sample.env3 Sample.workingAndAvailable "t2"
          Sample.tcpConfig).map.find u = Sample.workingAndAvailable.find u) :=
  tcp_address_selection Sample.opts2 Sample.env3 Sample.workingAndAvailable "t2"
    Sample.tcpConfig ["A"] "B" ["C"] (by decide) (by decide) (by decide) (by decide)
    (by decide)

/-- C8: run any sequence of acquire, start and release calls from the empty registry,
each under a network-address configuration (the configurations, their address lists and
the override lists are arbitrary and may repeat addresses). In the registry the run
leaves, also when its last call failed fatally, two entries held by different thread
identifiers never have backends with the same address. -/
theorem address_dedup (ndebug : Bool) (steps : List Step) (t u : ThreadID)
    (e1 e2 : sessionInfo)
    (hall : ∀ s ∈ steps, s.config.socketType = SocketType.TCP) (hne : t ≠ u)
    (h1 : (runCalls ndebug SocketMap.empty steps).map.find t = some e1)
    (h2 : (runCalls ndebug SocketMap.empty steps).map.find u = some e2) :
    e1.session.socketPath ≠ e2.session.socketPath := by
  have hinv := (inv_runCalls ndebug steps SocketMap.empty inv_empty hall).2
  intro heq
  have hm1 := mem_of_findRaw h1
  have hm2 := mem_of_findRaw h2
  unfold boundAddresses at hinv
  have := List.inj_on_of_nodup_map hinv hm1 hm2 heq
  injection this with h3 _
  exact hne h3

theorem address_dedup_witness :
    (runCalls true SocketMap.empty Sample.twoAcquires).map.find "t1" =
        some (sessionInfo.new none ⟨ImplKind.RPCImpl, SocketType.TCP, "B"⟩ "" 0 1) ∧
      (runCalls true SocketMap.empty Sample.twoAcquires).map.find "t2" =
        some (sessionInfo.new none ⟨ImplKind.RPCImpl, SocketType.TCP, "A"⟩ "" 0 1) ∧
      (sessionInfo.new none ⟨ImplKind.RPCImpl, SocketType.TCP, "B"⟩ "" 0 1).session.socketPath ≠
        (sessionInfo.new none ⟨ImplKind.RPCImpl, SocketType.TCP, "A"⟩ "" 0
          1).session.socketPath :=
  ⟨by decide, by decide,
    address_dedup true Sample.twoAcquires "t1" "t2"
      (sessionInfo.new none ⟨ImplKind.RPCImpl, SocketType.TCP, "B"⟩ "" 0 1)
      (sessionInfo.new none ⟨ImplKind.RPCImpl, SocketType.TCP, "A"⟩ "" 0 1)
      (by decide) (by decide) (by decide) (by decide)⟩

/-- C9, at the input where the claim and the code part: the process starts and the socket
file is absent at the first 25 existence checks and present at the 26th, made after the
25th sleep. The loop then makes 26 checks and 25 sleeps, its last check finds the file,
and yet the launch fails with the "took too long" condition, inserts nothing and skips
the warm-up; with the file present from the 3rd check it makes 3 checks, sleeps twice,
waits the 4 seconds and inserts the entry. -/
theorem ipc_polling_boundary :
    Sample.env26.ipcExists 25 = true ∧
      existsCount (runNewInstanceOfAClient Sample.opts2 Sample.env26 SocketMap.empty "t1"
        Sample.ipcConfig).events = 26 ∧
      sleepCount (runNewInstanceOfAClient Sample.opts2 Sample.env26 SocketMap.empty "t1"
        Sample.ipcConfig).events = 25 ∧
      (runNewInstanceOfAClient Sample.opts2 Sample.env26 SocketMap.empty "t1"
        Sample.ipcConfig).result = Except.error Fatal.clientTookTooLong ∧
      (runNewInstanceOfAClient Sample.opts2 Sample.env26 SocketMap.empty "t1"
        Sample.ipcConfig).map = SocketMap.empty ∧
      (runNewInstanceOfAClient Sample.opts2 Sample.env3 SocketMap.empty "t1"
        Sample.ipcConfig).result = Except.ok () ∧
      (runNewInstanceOfAClient Sample.opts2 Sample.env3 SocketMap.empty "t1"
        Sample.ipcConfig).events =
        [Event.createUniqueTmpDirectory "/tmp/a",
          Event.popen2 "bash" ["start.sh", "/tmp/a", "/tmp/a/geth.ipc"]
            popenOutput.DisableAll,
          Event.fileExists "/tmp/a/geth.ipc", Event.sleepSeconds 1,
          Event.fileExists "/tmp/a/geth.ipc", Event.sleepSeconds 1,
          Event.fileExists "/tmp/a/geth.ipc", Event.sleepSeconds 4] ∧
      (runNewInstanceOfAClient Sample.opts2 Sample.env3 SocketMap.empty "t1"
        Sample.ipcConfig).map.count "t1" = true := by
  decide

/-- C10, as stated, fails: the entry created by the attached-debug-socket branch has a
backend of type `IPC`, so `closeSession` does act on it. -/
theorem closeSession_debug_counterexample :
    (runNewInstanceOfAClient Sample.opts2 Sample.env3 SocketMap.empty "t1"
        Sample.debugConfig).result = Except.ok () ∧
      (closeSession (runNewInstanceOfAClient Sample.opts2 Sample.env3 SocketMap.empty "t1"
        Sample.debugConfig).map "t1").events =
        [Event.pclose2 none 0, Event.sleepSeconds 4, Event.removeAll "/tmp/a"] := by
  decide

/-- C10, amended: let the launcher create an entry for `t`. For an entry of the
local-socket branch `closeSession` signals the spawned process through its pipe and pid,
waits 4 seconds and removes the temporary directory of the launch; for an entry of the
network-address or in-process-tool branch it performs no action; an entry of the
attached-debug-socket branch is not exempt, the temporary directory allocated for it is
removed. -/
theorem closeSession_by_branch (opts : Options) (env : Env) (m : SocketMap) (t : ThreadID)
    (config : ClientConfig) (e : sessionInfo) (hfind : m.find t = none)
    (hres : (runNewInstanceOfAClient opts env m t config).result = Except.ok ())
    (he : (runNewInstanceOfAClient opts env m t config).map.find t = some e) :
    (closeSession (runNewInstanceOfAClient opts env m t config).map t).result =
        Except.ok () ∧
      (config.socketType = SocketType.IPC →
        ∃ fp pid, env.popen = some (fp, pid) ∧
          (closeSession (runNewInstanceOfAClient opts env m t config).map t).events =
            [Event.pclose2 (some fp) pid, Event.sleepSeconds 4,
              Event.removeAll env.tmpDir]) ∧
      (config.socketType = SocketType.TCP ∨ config.socketType = SocketType.TransitionTool →
        (closeSession (runNewInstanceOfAClient opts env m t config).map t).events = []) ∧
      (config.socketType = SocketType.IPCDebug →
        Event.removeAll env.tmpDir ∈
          (closeSession (runNewInstanceOfAClient opts env m t config).map t).events) := by
  obtain ⟨hr, hev⟩ := closeSession_of_find he
  refine ⟨hr, ?_, ?_, ?_⟩
  · intro hst
    rw [hev]
    unfold runNewInstanceOfAClient at hres he
    simp only [hst] at hres he
    cases hp : env.popen with
    | none => simp [hp] at hres
    | some x =>
      obtain ⟨fp, pid⟩ := x
      simp only [hp] at hres he
      by_cases hw : (waitForIpc (env.tmpDir ++ "/geth.ipc") env.ipcExists 25 0).1 > 0
      · simp only [hw, if_true] at he
        have hself := findRaw_insertRaw_self
          (v := sessionInfo.new (some fp)
            ⟨ImplKind.RPCImpl, SocketType.IPC, env.tmpDir ++ "/geth.ipc"⟩ env.tmpDir pid
            config.id) hfind
        have he2 : findRaw t (insertRaw t (sessionInfo.new (some fp)
            ⟨ImplKind.RPCImpl, SocketType.IPC, env.tmpDir ++ "/geth.ipc"⟩ env.tmpDir pid
            config.id) m.entries) = some e := he
        rw [hself] at he2
        injection he2 with he3
        subst he3
        exact ⟨fp, pid, rfl, rfl⟩
      · simp [hw] at hres
  · intro hst
    rw [hev]
    rcases hst with hst | hst
    · cases hsel : (if opts.nodesoverride.length > 0 then opts.nodesoverride
          else config.addressObject).find? (fun addr => !(addressInUse m addr)) with
      | none =>
        rw [runNewInstance_tcp_none hst hsel] at he
        rw [hfind] at he
        cases he
      | some a =>
        rw [runNewInstance_tcp_some hst hsel] at he
        have hself := findRaw_insertRaw_self
          (v := sessionInfo.new none ⟨ImplKind.RPCImpl, SocketType.TCP, a⟩ "" 0 config.id)
          hfind
        have he2 : findRaw t (insertRaw t (sessionInfo.new none
            ⟨ImplKind.RPCImpl, SocketType.TCP, a⟩ "" 0 config.id) m.entries) = some e := he
        rw [hself] at he2
        injection he2 with he3
        subst he3
        rfl
    · unfold runNewInstanceOfAClient at he
      simp only [hst] at he
      have hself := findRaw_insertRaw_self
        (v := sessionInfo.new none ⟨ImplKind.ToolImpl, SocketType.TCP, config.address⟩ "" 0
          config.id) hfind
      have he2 : findRaw t (insertRaw t (sessionInfo.new none
          ⟨ImplKind.ToolImpl, SocketType.TCP, config.address⟩ "" 0 config.id) m.entries) =
          some e := he
      rw [hself] at he2
      injection he2 with he3
      subst he3
      rfl
  · intro hst
    rw [hev]
    unfold runNewInstanceOfAClient at he
    simp only [hst] at he
    have hself := findRaw_insertRaw_self
      (v := sessionInfo.new none ⟨ImplKind.RPCImpl, SocketType.IPC, config.address⟩
        env.tmpDir 0 config.id) hfind
    have he2 : findRaw t (insertRaw t (sessionInfo.new none
        ⟨ImplKind.RPCImpl, SocketType.IPC, config.address⟩ env.tmpDir 0 config.id)
        m.entries) = some e := he
    rw [hself] at he2
    injection he2 with he3
    subst he3
    simp [sessionInfo.new]

theorem closeSession_by_branch_witness :
    (closeSession (runNewInstanceOfAClient Sample.opts2 Sample.env3 Sample.oneWorking "t2"
        Sample.ipcConfig).map "t2").result = Except.ok () ∧
      (Sample.ipcConfig.socketType = SocketType.IPC →
        ∃ fp pid, Sample.env3.popen = some (fp, pid) ∧
          (closeSession (runNewInstanceOfAClient Sample.opts2 Sample.env3 Sample.oneWorking
            "t2" Sample.ipcConfig).map "t2").events =
            [Event.pclose2 (some fp) pid, Event.sleepSeconds 4,
              Event.removeAll Sample.env3.tmpDir]) ∧
      (Sample.ipcConfig.socketType = SocketType.TCP ∨
          Sample.ipcConfig.socketType = SocketType.TransitionTool →
        (closeSession (runNewInstanceOfAClient Sample.opts2 Sample.env3 Sample.oneWorking
          "t2" Sample.ipcConfig).map "t2").events = []) ∧
      (Sample.ipcConfig.socketType = SocketType.IPCDebug →
        Event.removeAll Sample.env3.tmpDir ∈
          (closeSession (runNewInstanceOfAClient Sample.opts2 Sample.env3 Sample.oneWorking
            "t2" Sample.ipcConfig).map "t2").events) :=
  closeSession_by_branch Sample.opts2 Sample.env3 Sample.oneWorking "t2" Sample.ipcConfig
    (sessionInfo.new (some 7) ⟨ImplKind.RPCImpl, SocketType.IPC, "/tmp/a/geth.ipc"⟩ "/tmp/a"
      100 1)
    (by decide) (by decide) (by decide)

/-- C11: on every registry `RPCSession::clear` creates exactly one teardown per entry (the
keys of the teardowns are the keys of the registry, each once), no teardown hits the
fatal "Socket map is empty in closeSession!" check, so the call returns, the actions
performed are those of the teardown of each entry, and afterwards the registry has no
entries: `sessionStatus` is `NotExist` for every thread identifier. -/
theorem clear_tears_down_every_entry (m : SocketMap) (hord : m.ordered) :
    (closingThreads m).length = m.size ∧
      (closingThreads m).Nodup ∧
      (∀ t, t ∈ closingThreads m ↔ m.count t = true) ∧
      (∀ t ∈ closingThreads m, (closeSession m t).result = Except.ok ()) ∧
      (joinClosingThreads m (closingThreads m)).result = Except.ok () ∧
      (RPCSession_clear m).result = Except.ok () ∧
      (RPCSession_clear m).events = m.entries.flatMap (fun p => teardownActions p.2) ∧
      (RPCSession_clear m).map.size = 0 ∧
      (∀ t, sessionStatus (RPCSession_clear m).map t = SessionStatus.NotExist) := by
  have hordS := (ordered_iff m).mp hord
  have hall : ∀ p ∈ m.entries, m.find p.1 = some p.2 :=
    fun p hp => findRaw_of_mem hordS hp
  obtain ⟨hj1, hj2⟩ := joinClosingThreads_entries m.entries m hordS hall
  have hmem : ∀ t, t ∈ closingThreads m ↔ m.count t = true := by
    intro t
    unfold closingThreads SocketMap.count
    constructor
    · intro h
      obtain ⟨p, hp, hpt⟩ := List.mem_map.mp h
      rw [← hpt, hall p hp]
      rfl
    · intro h
      cases hf : m.find t with
      | none => rw [hf] at h; cases h
      | some e => exact List.mem_map.mpr ⟨(t, e), mem_of_findRaw hf, rfl⟩
  have hclear : RPCSession_clear m =
      ⟨SocketMap.empty, (joinClosingThreads m (closingThreads m)).events, Except.ok ()⟩ := by
    unfold RPCSession_clear
    have hj : (joinClosingThreads m (closingThreads m)).result = Except.ok () := hj1
    simp only [hj]
  refine ⟨?_, ?_, hmem, ?_, hj1, ?_, ?_, ?_, ?_⟩
  · simp [closingThreads, SocketMap.size]
  · have h1 : (m.entries.map Prod.fst).Pairwise (fun a b => a < b) :=
      List.pairwise_map.mpr hordS
    exact h1.imp (fun h => ne_of_lt h)
  · intro t ht
    have hc := (hmem t).mp ht
    unfold SocketMap.count at hc
    cases hf : m.find t with
    | none => rw [hf] at hc; cases hc
    | some e => exact (closeSession_of_find hf).1
  · rw [hclear]
  · rw [hclear]
    exact hj2
  · rw [hclear]
    rfl
  · intro t
    rw [hclear]
    rfl

theorem clear_tears_down_every_entry_witness :
    (closingThreads Sample.mixed).length = Sample.mixed.size ∧
      (closingThreads Sample.mixed).Nodup ∧
      (∀ t, t ∈ closingThreads Sample.mixed ↔ Sample.mixed.count t = true) ∧
      (∀ t ∈ closingThreads Sample.mixed,
        (closeSession Sample.mixed t).result = Except.ok ()) ∧
      (joinClosingThreads Sample.mixed (closingThreads Sample.mixed)).result =
        Except.ok () ∧
      (RPCSession_clear Sample.mixed).result = Except.ok () ∧
      (RPCSession_clear Sample.mixed).events =
        Sample.mixed.entries.flatMap (fun p => teardownActions p.2) ∧
      (RPCSession_clear Sample.mixed).map.size = 0 ∧
      (∀ t, sessionStatus (RPCSession_clear Sample.mixed).map t = SessionStatus.NotExist) :=
  clear_tears_down_every_entry Sample.mixed (by decide)

/-- C12: for every registry, every thread `t` that has an entry `e` and every status `s`,
`sessionEnd(t, s)` returns (whether or not the `assert` is compiled in) without any
action, and afterwards `sessionStatus(t)` is `s`, the keys of the registry are the same,
`t` maps to `e` with only the status replaced (same backend, `configId` and process
resources), and every other key maps to what it mapped to before; for every thread `u`
without an entry `sessionStatus(u)` is `NotExist`, a value computed from the registry
without changing it. -/
theorem sessionEnd_sessionStatus_agree (ndebug : Bool) (m : SocketMap) (t : ThreadID)
    (s : SessionStatus) (e : sessionInfo) (hfind : m.find t = some e) :
    (sessionEnd ndebug m t s).result = Except.ok () ∧
      (sessionEnd ndebug m t s).events = [] ∧
      sessionStatus (sessionEnd ndebug m t s).map t = s ∧
      closingThreads (sessionEnd ndebug m t s).map = closingThreads m ∧
      (sessionEnd ndebug m t s).map.find t = some { e with isUsed := s } ∧
      (∀ u, u ≠ t → (sessionEnd ndebug m t s).map.find u = m.find u) ∧
      (∀ u, m.find u = none → sessionStatus m u = SessionStatus.NotExist ∧
        (sessionEnd ndebug m t s).map.find u = none) := by
  have hcount : m.count t = true := by
    unfold SocketMap.count
    rw [hfind]
    rfl
  have hend : sessionEnd ndebug m t s = ⟨m.setStatus t s, [], Except.ok ()⟩ := by
    unfold sessionEnd
    simp [hcount]
  have hself : (m.setStatus t s).find t = some { e with isUsed := s } :=
    findRaw_setStatusRaw_self hfind
  rw [hend]
  refine ⟨rfl, rfl, ?_, ?_, hself, ?_, ?_⟩
  · unfold sessionStatus
    simp only [hself]
  · unfold closingThreads
    exact map_fst_setStatusRaw t s m.entries
  · intro u hu
    exact findRaw_setStatusRaw_ne _ hu
  · intro u hu
    have hne : u ≠ t := by
      intro hh
      rw [hh, hfind] at hu
      cases hu
    refine ⟨?_, ?_⟩
    · unfold sessionStatus
      rw [hu]
    · show findRaw u (setStatusRaw t s m.entries) = none
      rw [findRaw_setStatusRaw_ne _ hne]
      exact hu

theorem sessionEnd_sessionStatus_agree_witness :
    (sessionEnd false Sample.mixed "t1" SessionStatus.Available).result = Except.ok () ∧
      (sessionEnd false Sample.mixed "t1" SessionStatus.Available).events = [] ∧
      sessionStatus (sessionEnd false Sample.mixed "t1" SessionStatus.Available).map "t1" =
        SessionStatus.Available ∧
      closingThreads (sessionEnd false Sample.mixed "t1" SessionStatus.Available).map =
        closingThreads Sample.mixed ∧
      (sessionEnd false Sample.mixed "t1" SessionStatus.Available).map.find "t1" =
        some { Sample.tcpEntry "A" 1 SessionStatus.Working with
          isUsed := SessionStatus.Available } ∧
      (∀ u, u ≠ "t1" →
        (sessionEnd false Sample.mixed "t1" SessionStatus.Available).map.find u =
          Sample.mixed.find u) ∧
      (∀ u, Sample.mixed.find u = none →
        sessionStatus Sample.mixed u = SessionStatus.NotExist ∧
          (sessionEnd false Sample.mixed "t1" SessionStatus.Available).map.find u = none) :=
  sessionEnd_sessionStatus_agree false Sample.mixed "t1" SessionStatus.Available
    (Sample.tcpEntry "A" 1 SessionStatus.Working) (by decide)

/-- C13: if `sessionStart(t)` returns, `sessionStatus(t)` is `Working` afterwards; and a
second `sessionStart(t)` under the same configuration in effect (whatever the options and
the answers of the operating system) performs no action, so it launches nothing, and
leaves the registry exactly as the first call left it, so it reuses nothing; the second
call returns whenever that registry is within the configured number of worker
threads. -/
theorem sessionStart_idempotent (opts opts2 : Options) (config : ClientConfig)
    (env env2 : Env) (m : SocketMap) (t : ThreadID)
    (hok : (sessionStart opts config env m t).result = Except.ok ()) :
    sessionStatus (sessionStart opts config env m t).map t = SessionStatus.Working ∧
      (sessionStart opts2 config env2 (sessionStart opts config env m t).map t).events = [] ∧
      (sessionStart opts2 config env2 (sessionStart opts config env m t).map t).map =
        (sessionStart opts config env m t).map ∧
      ((sessionStart opts config env m t).map.size ≤ opts2.threadCount →
        (sessionStart opts2 config env2 (sessionStart opts config env m t).map t).result =
          Except.ok ()) := by
  obtain ⟨e, he, hw, hc⟩ := sessionStart_ok_find hok
  obtain ⟨h1, h2, h3⟩ := sessionStart_existing_working opts2 config env2 he hw hc
  refine ⟨?_, h1, h2, h3⟩
  unfold sessionStatus
  rw [he]
  exact hw

theorem sessionStart_idempotent_witness :
    sessionStatus (sessionStart Sample.opts2 Sample.tcpConfig Sample.env3 Sample.oneWorking
        "t2").map "t2" = SessionStatus.Working ∧
      (sessionStart Sample.opts2 Sample.tcpConfig Sample.env26
        (sessionStart Sample.opts2 Sample.tcpConfig Sample.env3 Sample.oneWorking "t2").map
        "t2").events = [] ∧
      (sessionStart Sample.opts2 Sample.tcpConfig Sample.env26
        (sessionStart Sample.opts2 Sample.tcpConfig Sample.env3 Sample.oneWorking "t2").map
        "t2").map =
        (sessionStart Sample.opts2 Sample.tcpConfig Sample.env3 Sample.oneWorking "t2").map ∧
      ((sessionStart Sample.opts2 Sample.tcpConfig Sample.env3 Sample.oneWorking
          "t2").map.size ≤ Sample.opts2.threadCount →
        (sessionStart Sample.opts2 Sample.tcpConfig Sample.env26
          (sessionStart Sample.opts2 Sample.tcpConfig Sample.env3 Sample.oneWorking "t2").map
          "t2").result = Except.ok ()) :=
  sessionStart_idempotent Sample.opts2 Sample.opts2 Sample.tcpConfig Sample.env3 Sample.env26
    Sample.oneWorking "t2" (by decide)

/-- C14: in a registry where thread `t` has no entry and at least one entry is `Available`
with the `configId` of the configuration in effect, `RPCSession::instance` reuses the
entry whose key `k` is the smallest, in the lexicographic order of strings, among the
keys of such entries: it returns the backend of that entry, moves it to `t` and removes
`k`. The outcome is a function of the contents of the registry: a registry state with
the same lookups gives the same outcome, and neither the order of insertions under
different keys nor the order of status writes under different keys changes the state. -/
theorem reuse_winner_is_least_key (opts : Options) (config : ClientConfig) (env : Env)
    (m : SocketMap) (t : ThreadID) (hord : m.ordered) (hfind : m.find t = none)
    (hav : ∃ p ∈ m.entries,
      p.2.isUsed = SessionStatus.Available ∧ p.2.configId = config.id) :
    (∃ k e, m.find k = some e ∧ e.isUsed = SessionStatus.Available ∧
      e.configId = config.id ∧
      (∀ k2 e2, m.find k2 = some e2 → e2.isUsed = SessionStatus.Available →
        e2.configId = config.id → k ≤ k2) ∧
      (RPCSession_instance opts config env m t).result = Except.ok e.session ∧
      (RPCSession_instance opts config env m t).map.find t =
        some { e with isUsed := SessionStatus.Working } ∧
      (RPCSession_instance opts config env m t).map.find k = none) ∧
    (∀ m2 : SocketMap, m2.ordered → (∀ u, m2.find u = m.find u) →
      RPCSession_instance opts config env m2 t = RPCSession_instance opts config env m t) ∧
    (∀ (a b : ThreadID) (x y : sessionInfo), a ≠ b →
      (m.insert a x).insert b y = (m.insert b y).insert a x) ∧
    (∀ (a b : ThreadID) (s1 s2 : SessionStatus), a ≠ b →
      (m.setStatus a s1).setStatus b s2 = (m.setStatus b s2).setStatus a s1) := by
  have hordS := (ordered_iff m).mp hord
  refine ⟨?_, ?_, ?_, ?_⟩
  · obtain ⟨q, hq, hq1, hq2⟩ := hav
    cases hfa : findAvailable config.id m with
    | none => exact absurd ⟨hq1, hq2⟩ (findAvailable_eq_none hfa q hq)
    | some p =>
      obtain ⟨hmem, hp1, hp2⟩ := findAvailable_spec hfa
      have hfk : findRaw p.1 m.entries = some p.2 := findRaw_of_mem hordS hmem
      have hne : t ≠ p.1 := by
        intro hh
        exact (findRaw_eq_none_iff.mp hfind) p hmem hh.symm
      rw [instance_reuse_eq opts config env m t p hfind hfa]
      refine ⟨p.1, p.2, hfk, hp1, hp2, ?_, rfl, ?_, ?_⟩
      · intro k2 e2 hk2 ha hc
        have hleast := find?_least_key hordS hfa (k2, e2) (mem_of_findRaw hk2)
        apply hleast
        simp [ha, hc]
      · show findRaw t (eraseRaw p.1 (insertRaw t _ m.entries)) = _
        rw [findRaw_eraseRaw_ne _ hne]
        exact findRaw_insertRaw_self hfind
      · show findRaw p.1 (eraseRaw p.1 (insertRaw t _ m.entries)) = none
        exact findRaw_eraseRaw_self (pairwise_insertRaw hordS)
  · intro m2 h2 hsame
    rw [SocketMap.ext_find h2 hord hsame]
  · intro a b x y hne
    exact SocketMap.insert_comm hord x y hne
  · intro a b s1 s2 hne
    exact SocketMap.setStatus_comm hord s1 s2 hne

theorem reuse_winner_is_least_key_witness :
    (∃ k e, Sample.threeAvailable.find k = some e ∧ e.isUsed = SessionStatus.Available ∧
      e.configId = Sample.tcpConfig.id ∧
      (∀ k2 e2, Sample.threeAvailable.find k2 = some e2 →
        e2.isUsed = SessionStatus.Available → e2.configId = Sample.tcpConfig.id → k ≤ k2) ∧
      (RPCSession_instance Sample.opts2 Sample.tcpConfig Sample.env3 Sample.threeAvailable
        "t2").result = Except.ok e.session ∧
      (RPCSession_instance Sample.opts2 Sample.tcpConfig Sample.env3 Sample.threeAvailable
        "t2").map.find "t2" = some { e with isUsed := SessionStatus.Working } ∧
      (RPCSession_instance Sample.opts2 Sample.tcpConfig Sample.env3 Sample.threeAvailable
        "t2").map.find k = none) ∧
    (∀ m2 : SocketMap, m2.ordered → (∀ u, m2.find u = Sample.threeAvailable.find u) →
      RPCSession_instance Sample.opts2 Sample.tcpConfig Sample.env3 m2 "t2" =
        RPCSession_instance Sample.opts2 Sample.tcpConfig Sample.env3 Sample.threeAvailable
          "t2") ∧
    (∀ (a b : ThreadID) (x y : sessionInfo), a ≠ b →
      (Sample.threeAvailable.insert a x).insert b y =
        (Sample.threeAvailable.insert b y).insert a x) ∧
    (∀ (a b : ThreadID) (s1 s2 : SessionStatus), a ≠ b →
      (Sample.threeAvailable.setStatus a s1).setStatus b s2 =
        (Sample.threeAvailable.setStatus b s2).setStatus a s1) :=
  reuse_winner_is_least_key Sample.opts2 Sample.tcpConfig Sample.env3 Sample.threeAvailable
    "t2" (by decide) (by decide) (by decide)

end Retesteth
